import Mathlib

/-!
Verification of the template rendering, normalization, validation and
deployment logic of the amazon_connect_deploy repository, shallowly embedded
in Lean 4.

Sources embedded here:
  * scripts/render.js   — `TemplateRenderer.render`, `resolveToken`,
    `validateRenderedFlow`, `validateArns`, `validatePhoneNumbers`
  * scripts/normalize.js — `FlowNormalizer.normalize` and its four passes
  * scripts/validate.js — `FlowValidator` (error accumulation, instance
    consistency, token completeness with its doubly escaped token regex)
  * cdk/lib/connect-flow-stack.js — the inline custom-resource handler's
    Delete path (`handleDelete`)

JavaScript objects are modelled as association lists of string keys (parsed
JSON/YAML never carries duplicate keys), JS numbers occurring in the flows as
integers, and JS exceptions as `Option`/`Except` results.
-/

namespace ConnectDeploy

/-! ### Environment token trees (env/*.yaml `tokens:` section)

YAML token trees are nested maps whose leaves are scalars.  `node` is a YAML
mapping, the other constructors are scalar leaves. -/

inductive Tok where
  | str (s : String)
  | num (n : Int)
  | bool (b : Bool)
  | null
  | node (entries : List (String × Tok))

/-- `resolveToken`'s walk over one path segment list (render.js:62-75).
The JS loop keeps walking while `value && typeof value === 'object' &&
part in value`; a scalar or missing key yields `undefined` (`none`). -/
def resolveParts : Tok → List String → Option Tok
  | v, [] => some v
  | .node es, p :: ps =>
    match List.lookup p es with
    | some v => resolveParts v ps
    | none => none
  | _, _ :: _ => none

/-- JS `tokenPath.split('.')` (render.js:63), one segment per `.`;
`''.split('.')` is `['']`. -/
def splitDotGo (acc : List Char) : List Char → List String
  | [] => [String.mk acc.reverse]
  | c :: cs =>
    if c = '.' then String.mk acc.reverse :: splitDotGo [] cs
    else splitDotGo (c :: acc) cs

/-- JS `s.split('.')`. -/
def jsSplitDot (s : String) : List String :=
  splitDotGo [] s.data

/-- render.js:62-75, `resolveToken(tokenPath)`: split on `.` and walk the
`tokens` tree. -/
def resolveToken (tokens : Tok) (path : String) : Option Tok :=
  resolveParts tokens (jsSplitDot path)

/-- JS `String(value)` for the values a YAML token tree can hold, as used by
`String.prototype.replace` on the replacer's return value (render.js:45). -/
def jsToString : Tok → String
  | .str s => s
  | .num n => toString n
  | .bool b => if b then "true" else "false"
  | .null => "null"
  | .node _ => "[object Object]"

/-- Errors thrown by `TemplateRenderer.render` (render.js:43 and 51). -/
inductive RErr where
  | tokenNotFound (path : String)
  | unresolvedTokens (found : List String)
deriving DecidableEq

/-!
The left-to-right substitution pass of render.js:40-46:
`template.replace(/\$\x7b([^\x7d]+)\x7d/g, ...)`, written as a character
automaton equivalent to the regex engine's leftmost-match scan.  A match is a
`$`, a `\x7b`, a maximal nonempty run of non-`\x7d` characters (the token
path) and a closing `\x7d`; a failed attempt leaves the attempted characters
in the output verbatim and the scan resumes (the regex engine retries at the
next index, but no match can start inside `$\x7b...` except at a later `$`,
which the automaton also tracks).  A resolved value is spliced into the output
verbatim and never rescanned; an `undefined` or `null` resolution throws
`Token not found: <path>` at the first such match (render.js:42-43).
-/

mutual

/-- Scanner state outside any token attempt. -/
def renderGo (env : Tok) : List Char → Except RErr (List Char)
  | [] => .ok []
  | c :: cs =>
    if c = '$' then renderDollar env cs
    else (fun o => c :: o) <$> renderGo env cs

/-- Scanner state after reading a `$` that may open a token. -/
def renderDollar (env : Tok) : List Char → Except RErr (List Char)
  | [] => .ok ['$']
  | c :: cs =>
    if c = '\x7b' then renderTok env [] cs
    else if c = '$' then (fun o => '$' :: o) <$> renderDollar env cs
    else (fun o => '$' :: c :: o) <$> renderGo env cs

/-- Scanner state inside `$\x7b`, accumulating the candidate token path in
reverse.  A `\x7d` with a nonempty accumulator completes a match; an empty
accumulator or end of input is a failed attempt, emitted verbatim. -/
def renderTok (env : Tok) (acc : List Char) : List Char → Except RErr (List Char)
  | [] => .ok ('$' :: '\x7b' :: acc.reverse)
  | c :: cs =>
    if c = '\x7d' then
      match acc.reverse with
      | [] => (fun o => '$' :: '\x7b' :: '\x7d' :: o) <$> renderGo env cs
      | t0 :: ts =>
        match resolveToken env (String.mk (t0 :: ts)) with
        | none => .error (.tokenNotFound (String.mk (t0 :: ts)))
        | some .null => .error (.tokenNotFound (String.mk (t0 :: ts)))
        | some v => (fun o => (jsToString v).data ++ o) <$> renderGo env cs
    else renderTok env (c :: acc) cs

end

/-!
The sequence of token paths the global token regex matches in a text, in
left-to-right order: the same scan as `renderGo`, extraction only.
-/

mutual

/-- Token-path scan, state outside any attempt. -/
def occGo : List Char → List String
  | [] => []
  | c :: cs => if c = '$' then occDollar cs else occGo cs

def occDollar : List Char → List String
  | [] => []
  | c :: cs =>
    if c = '\x7b' then occTok [] cs
    else if c = '$' then occDollar cs
    else occGo cs

def occTok (acc : List Char) : List Char → List String
  | [] => []
  | c :: cs =>
    if c = '\x7d' then
      match acc.reverse with
      | [] => occGo cs
      | t0 :: ts => String.mk (t0 :: ts) :: occGo cs
    else occTok (c :: acc) cs

end

/-- All token paths matched in a text, leftmost first. -/
def tokenOccurrences (l : List Char) : List String :=
  occGo l

/-- render.js:49, `rendered.match(this.tokenPattern)`: the list of full
matches of the token pattern still present in a text. -/
def remainingTokens (l : List Char) : List String :=
  (tokenOccurrences l).map (fun t => "$\x7b" ++ t ++ "\x7d")

/-- render.js:39-55, `TemplateRenderer.render`: substitute left to right
(throwing `Token not found` at the first unresolved path), then fail with
`Unresolved tokens found` if the token pattern still matches the output. -/
def render (env : Tok) (template : String) : Except RErr String :=
  match renderGo env template.data with
  | .error e => .error e
  | .ok out =>
    match remainingTokens out with
    | [] => .ok (String.mk out)
    | ms => .error (.unresolvedTokens ms)

/-- The code's notion of a path failing to resolve (render.js:42,
`value === undefined || value === null`). -/
def unresolvedIn (env : Tok) (path : String) : Bool :=
  match resolveToken env path with
  | none => true
  | some .null => true
  | some _ => false

/-! ### Facts about the renderer (claims C1 and C3) -/

mutual

/-- If the first unresolved path among the matches of `l` is `q`, the
substitution pass throws `Token not found: q`. -/
theorem occGo_err (env : Tok) : ∀ (l : List Char) (q : String),
    (occGo l).find? (unresolvedIn env) = some q →
    renderGo env l = .error (.tokenNotFound q)
  | [], q, h => by simp [occGo] at h
  | c :: cs, q, h => by
    by_cases hc : c = '$'
    · subst hc
      simp only [occGo, reduceIte] at h
      simp only [renderGo, reduceIte]
      exact occDollar_err env cs q h
    · simp only [occGo, if_neg hc] at h
      simp only [renderGo, if_neg hc, occGo_err env cs q h]
      rfl

theorem occDollar_err (env : Tok) : ∀ (l : List Char) (q : String),
    (occDollar l).find? (unresolvedIn env) = some q →
    renderDollar env l = .error (.tokenNotFound q)
  | [], q, h => by simp [occDollar] at h
  | c :: cs, q, h => by
    by_cases hb : c = '\x7b'
    · subst hb
      simp only [occDollar, reduceIte] at h
      simp only [renderDollar, reduceIte]
      exact occTok_err env [] cs q h
    · by_cases hd : c = '$'
      · subst hd
        simp only [occDollar, if_neg hb, reduceIte] at h
        simp only [renderDollar, if_neg hb, reduceIte,
          occDollar_err env cs q h]
        rfl
      · simp only [occDollar, if_neg hb, if_neg hd] at h
        simp only [renderDollar, if_neg hb, if_neg hd,
          occGo_err env cs q h]
        rfl

theorem occTok_err (env : Tok) : ∀ (acc l : List Char) (q : String),
    (occTok acc l).find? (unresolvedIn env) = some q →
    renderTok env acc l = .error (.tokenNotFound q)
  | acc, [], q, h => by simp [occTok] at h
  | acc, c :: cs, q, h => by
    by_cases hb : c = '\x7d'
    · subst hb
      simp only [occTok, reduceIte] at h
      simp only [renderTok, reduceIte]
      cases hrev : acc.reverse with
      | nil =>
        rw [hrev] at h
        simp only [occGo_err env cs q h]
        rfl
      | cons t0 ts =>
        rw [hrev] at h
        cases hres : resolveToken env (String.mk (t0 :: ts)) with
        | none =>
          have hu : unresolvedIn env (String.mk (t0 :: ts)) = true := by
            simp [unresolvedIn, hres]
          simp only [List.find?_cons, hu] at h
          cases h
          simp [hres]
        | some v =>
          have hsplit : (v = Tok.null ∧ unresolvedIn env (String.mk (t0 :: ts)) = true)
              ∨ (v ≠ Tok.null ∧ unresolvedIn env (String.mk (t0 :: ts)) = false) := by
            cases v <;> simp [unresolvedIn, hres]
          rcases hsplit with ⟨hv, hu⟩ | ⟨hv, hu⟩
          · subst hv
            simp only [List.find?_cons, hu] at h
            cases h
            simp [hres]
          · simp only [List.find?_cons, hu] at h
            have hrec := occGo_err env cs q h
            cases v with
            | null => exact absurd rfl hv
            | str sv => simp [hres, hrec]
            | num nv => simp [hres, hrec]
            | bool bv => simp [hres, hrec]
            | node es => simp [hres, hrec]
    · simp only [occTok, if_neg hb] at h
      simp only [renderTok, if_neg hb]
      exact occTok_err env (c :: acc) cs q h

end

/-- A sample environment map: `Queue.Sales` is defined, `NonExistent.Token`
is not. -/
def envSample : Tok :=
  .node [("Queue", .node [("Sales", .str "queue-arn")])]

/-- C1.  For every template text and environment map, if the template contains
a token placeholder whose dot-separated path does not resolve in the
environment map's token tree (render.js treats an `undefined` or `null`
resolution as unresolved), then `render` fails on the first such unresolved
path in left-to-right match order, the thrown failure names exactly that path
(`Token not found: <path>`), and no rendered output is produced (the error is
the whole result). -/
theorem render_fails_first_unresolved (env : Tok) (template : String) (q : String)
    (h : (tokenOccurrences template.data).find? (unresolvedIn env) = some q) :
    render env template = .error (.tokenNotFound q) := by
  unfold render
  rw [show renderGo env template.data = .error (.tokenNotFound q) from
    occGo_err env template.data q h]

/-- Witness for C1: rendering `$\x7bQueue.Sales\x7d$\x7bNonExistent.Token\x7d`
against `envSample` skips the resolvable first token and throws on
`NonExistent.Token`, naming exactly that path. -/
theorem render_fails_first_unresolved_witness :
    (tokenOccurrences
        ("$\x7bQueue.Sales\x7d$\x7bNonExistent.Token\x7d".data)).find?
      (unresolvedIn envSample) = some "NonExistent.Token" ∧
    render envSample "$\x7bQueue.Sales\x7d$\x7bNonExistent.Token\x7d" =
      .error (.tokenNotFound "NonExistent.Token") :=
  ⟨rfl, render_fails_first_unresolved envSample _ _ rfl⟩

/-- Walking a run of non-`\x7d` characters inside a token attempt just moves
them into the accumulator. -/
theorem renderTok_walk (env : Tok) : ∀ (pl acc cs : List Char),
    (∀ c ∈ pl, c ≠ '\x7d') →
    renderTok env acc (pl ++ cs) = renderTok env (pl.reverse ++ acc) cs := by
  intro pl
  induction pl with
  | nil => intro acc cs _; simp
  | cons p pl ih =>
    intro acc cs hnb
    have hp : p ≠ '\x7d' := hnb p (List.mem_cons_self p pl)
    have hrest : ∀ c ∈ pl, c ≠ '\x7d' := fun c hc => hnb c (List.mem_cons_of_mem p hc)
    simp only [List.cons_append, renderTok, if_neg hp, List.append_eq]
    rw [ih (p :: acc) cs hrest]
    simp

/-- A token tree on which re-expansion would be observable: `A.B` resolves to
the literal text `$\x7bX\x7d`, and `X` itself resolves. -/
def envLoop : Tok :=
  .node [("A", .node [("B", .str "$\x7bX\x7d")]), ("X", .str "surprise")]

/-- C3.  Substitution is a single left-to-right pass over the raw template
text: a substituted value is spliced into the output verbatim, so a value that
itself contains the literal token syntax is never re-resolved (first
conjunct: the pass yields exactly the resolved text); and if the token syntax
pattern still matches anywhere in the output after substitution, `render`
fails with the list of remaining matches instead of expanding them (second
conjunct); a successful `render` output never matches the token pattern
(third conjunct). -/
theorem render_single_pass_no_reexpansion :
    (∀ (env : Tok) (pl : List Char) (v : String),
        pl ≠ [] → '\x7d' ∉ pl →
        resolveToken env (String.mk pl) = some (.str v) →
        renderGo env ('$' :: '\x7b' :: (pl ++ ['\x7d'])) = .ok v.data) ∧
    (∀ (env : Tok) (l out : List Char),
        renderGo env l = .ok out → remainingTokens out ≠ [] →
        render env (String.mk l) = .error (.unresolvedTokens (remainingTokens out))) ∧
    (∀ (env : Tok) (t r : String),
        render env t = .ok r → remainingTokens r.data = []) := by
  refine ⟨?_, ?_, ?_⟩
  · intro env pl v hne hnb hres
    have h1 : renderGo env ('$' :: '\x7b' :: (pl ++ ['\x7d'])) =
        renderTok env [] (pl ++ ['\x7d']) := by
      simp [renderGo, renderDollar]
    rw [h1, renderTok_walk env pl [] ['\x7d'] (fun c hc => by
      intro hcontra; exact hnb (hcontra ▸ hc))]
    cases hpl : pl with
    | nil => exact absurd hpl hne
    | cons t0 ts =>
      subst hpl
      simp only [List.append_nil, renderTok, reduceIte, List.reverse_reverse]
      rw [hres]
      simp [renderGo, jsToString]
  · intro env l out hgo hne
    unfold render
    rw [show (String.mk l).data = l from rfl, hgo]
    show (match remainingTokens out with
      | [] => Except.ok (String.mk out)
      | ms => Except.error (RErr.unresolvedTokens ms)) = _
    cases hm : remainingTokens out with
    | nil => exact absurd hm hne
    | cons m ms => rfl
  · intro env t r h
    unfold render at h
    split at h
    · cases h
    · split at h
      · cases h
        next hout _ hm => simpa using hm
      · cases h

/-- Witness for C3: rendering `$\x7bA.B\x7d` against `envLoop` substitutes the
literal text `$\x7bX\x7d` verbatim (it is not re-resolved to `surprise`), and
`render` then fails listing the remaining match `$\x7bX\x7d`. -/
theorem render_single_pass_no_reexpansion_witness :
    renderGo envLoop ('$' :: '\x7b' :: (['A', '.', 'B'] ++ ['\x7d'])) =
      .ok ("$\x7bX\x7d".data) ∧
    render envLoop (String.mk ('$' :: '\x7b' :: (['A', '.', 'B'] ++ ['\x7d']))) =
      .error (.unresolvedTokens ["$\x7bX\x7d"]) :=
  ⟨render_single_pass_no_reexpansion.1 envLoop ['A', '.', 'B'] "$\x7bX\x7d"
      (by decide) (by decide) rfl,
   render_single_pass_no_reexpansion.2.1 envLoop _ _
      (render_single_pass_no_reexpansion.1 envLoop ['A', '.', 'B'] "$\x7bX\x7d"
        (by decide) (by decide) rfl)
      (by decide)⟩

/-! ### JSON documents and the normalizer (scripts/normalize.js)

Contact-flow documents are JSON trees; JS objects are association lists (a
parsed JSON object has unique keys, in insertion order), JS numbers appearing
in flows are integers. -/

inductive Json where
  | null
  | bool (b : Bool)
  | num (n : Int)
  | str (s : String)
  | arr (items : List Json)
  | obj (entries : List (String × Json))

/-- normalize.js:59-65, the volatile metadata fields removed at every depth. -/
def metaFields : List String :=
  ["lastModifiedTime", "createdTime", "lastModifiedBy", "createdBy", "version"]

mutual

/-- normalize.js:58-82, `removeMetadataNoise`: delete the `metaFields` keys on
every object node, recursing into every object or array value. -/
def remMeta : Json → Json
  | .obj es => .obj (remMetaEntries es)
  | .arr xs => .arr (remMetaList xs)
  | j => j

def remMetaEntries : List (String × Json) → List (String × Json)
  | [] => []
  | (k, v) :: es =>
    if k ∈ metaFields then remMetaEntries es
    else (k, remMeta v) :: remMetaEntries es

def remMetaList : List Json → List Json
  | [] => []
  | x :: xs => remMeta x :: remMetaList xs

end

/-- normalize.js:89-93, `Math.round(coord / 10) * 10` on an integer: the
nearest multiple of 10, halves rounding up (towards `+∞`, as JS
`Math.round`). -/
def round10 (n : Int) : Int :=
  ((n + 5).fdiv 10) * 10

/-- normalize.js:88-93, `normalizeCoord`: quantize numbers, return anything
else unchanged. -/
def quantizeVal : Json → Json
  | .num n => .num (round10 n)
  | v => v

mutual

/-- normalize.js:87-109, `normalizeCoordinates`: on every object node,
quantize the values of the `x` and `y` layout-position fields, recursing into
every object or array value. -/
def normCoords : Json → Json
  | .obj es => .obj (normCoordsEntries es)
  | .arr xs => .arr (normCoordsList xs)
  | j => j

def normCoordsEntries : List (String × Json) → List (String × Json)
  | [] => []
  | (k, v) :: es =>
    (k, if k = "x" ∨ k = "y" then quantizeVal (normCoords v) else normCoords v) ::
      normCoordsEntries es

def normCoordsList : List Json → List Json
  | [] => []
  | x :: xs => normCoords x :: normCoordsList xs

end

/-- Comparison of object entries by key, as JS `Object.keys(obj).sort()`
(lexicographic on the key strings). -/
def keyLE (a b : String × Json) : Prop :=
  a.1 ≤ b.1

instance : DecidableRel keyLE := fun a b => inferInstanceAs (Decidable (a.1 ≤ b.1))

instance : IsTotal (String × Json) keyLE :=
  ⟨fun a b => le_total a.1 b.1⟩

instance : IsTrans (String × Json) keyLE :=
  ⟨fun _ _ _ h1 h2 => le_trans h1 h2⟩

mutual

/-- normalize.js:114-133, `sortObjectKeys`: arrays keep their element order
(elements sorted recursively); objects are rebuilt with keys in sorted order
(a JS object's keys are unique, so any stable sort of the entry list by key
matches the JS `sorted[key] = sortObjectKeys(obj[key])` rebuild). -/
def sortKeys : Json → Json
  | .obj es => .obj (List.insertionSort keyLE (sortKeysEntries es))
  | .arr xs => .arr (sortKeysList xs)
  | j => j

def sortKeysEntries : List (String × Json) → List (String × Json)
  | [] => []
  | (k, v) :: es => (k, sortKeys v) :: sortKeysEntries es

def sortKeysList : List Json → List Json
  | [] => []
  | x :: xs => sortKeys x :: sortKeysList xs

end

/-- JS `cleanedValue === null`. -/
def isNull : Json → Bool
  | .null => true
  | _ => false

/-- JS `Array.isArray(cleanedValue) && cleanedValue.length === 0`. -/
def isEmptyArr : Json → Bool
  | .arr [] => true
  | _ => false

mutual

/-- normalize.js:139-157, `cleanObject`: arrays drop `null` items; objects
drop entries whose cleaned value is `null` or an empty array. -/
def cleanV : Json → Json
  | .obj es => .obj (cleanEntries es)
  | .arr xs => .arr (cleanList xs)
  | j => j

def cleanEntries : List (String × Json) → List (String × Json)
  | [] => []
  | (k, v) :: es =>
    if isNull (cleanV v) || isEmptyArr (cleanV v) then cleanEntries es
    else (k, cleanV v) :: cleanEntries es

def cleanList : List Json → List Json
  | [] => []
  | x :: xs =>
    if isNull (cleanV x) then cleanList xs
    else cleanV x :: cleanList xs

end

/-- normalize.js:138-162, `removeEmptyValues`: the top level iterates
`Object.keys(flowJson)` and assigns `cleanObject` of each value back, so the
root's own keys (or array slots) are never dropped, even when their cleaned
value is `null` or an empty array. -/
def removeEmptyTop : Json → Json
  | .obj es => .obj (es.map (fun p => (p.1, cleanV p.2)))
  | .arr xs => .arr (xs.map cleanV)
  | j => j

/-- normalize.js:36-53, `FlowNormalizer.normalize`: deep copy (identity on a
pure tree), remove metadata, quantize coordinates, sort keys, prune empties.
On a `null` root, `sortObjects` reaches `Object.keys(null)`, which throws a
`TypeError` in JS (`none` here); every other root is processed (non-object
roots pass through `Object.keys` coercion unchanged — in sloppy mode,
assignments to string indices are silent no-ops). -/
def normalize (j : Json) : Option Json :=
  match j with
  | .null => none
  | j => some (removeEmptyTop (sortKeys (normCoords (remMeta j))))

/-! ### Invariants established by the normalizer passes -/

mutual

/-- No metadata field occurs on any object node. -/
def NoMeta : Json → Prop
  | .obj es => NoMetaEntries es
  | .arr xs => NoMetaList xs
  | _ => True

def NoMetaEntries : List (String × Json) → Prop
  | [] => True
  | (k, v) :: es => k ∉ metaFields ∧ NoMeta v ∧ NoMetaEntries es

def NoMetaList : List Json → Prop
  | [] => True
  | x :: xs => NoMeta x ∧ NoMetaList xs

end

mutual

/-- Every `x`/`y` field anywhere holds a `quantizeVal`-fixed value. -/
def CoordsQ : Json → Prop
  | .obj es => CoordsQEntries es
  | .arr xs => CoordsQList xs
  | _ => True

def CoordsQEntries : List (String × Json) → Prop
  | [] => True
  | (k, v) :: es =>
    ((k = "x" ∨ k = "y") → quantizeVal v = v) ∧ CoordsQ v ∧ CoordsQEntries es

def CoordsQList : List Json → Prop
  | [] => True
  | x :: xs => CoordsQ x ∧ CoordsQList xs

end

mutual

/-- Every object node's entries are sorted by key. -/
def SortedK : Json → Prop
  | .obj es => List.Sorted keyLE es ∧ SortedKEntries es
  | .arr xs => SortedKList xs
  | _ => True

def SortedKEntries : List (String × Json) → Prop
  | [] => True
  | (_, v) :: es => SortedK v ∧ SortedKEntries es

def SortedKList : List Json → Prop
  | [] => True
  | x :: xs => SortedK x ∧ SortedKList xs

end

/-- Membership form of `NoMetaEntries`, stable under permutation. -/
theorem noMetaEntries_iff (es : List (String × Json)) :
    NoMetaEntries es ↔ ∀ p ∈ es, p.1 ∉ metaFields ∧ NoMeta p.2 := by
  induction es with
  | nil => simp [NoMetaEntries]
  | cons p es ih =>
    cases p with
    | mk k v => simp [NoMetaEntries, ih, and_assoc]

/-- Membership form of `CoordsQEntries`, stable under permutation. -/
theorem coordsQEntries_iff (es : List (String × Json)) :
    CoordsQEntries es ↔
      ∀ p ∈ es, ((p.1 = "x" ∨ p.1 = "y") → quantizeVal p.2 = p.2) ∧ CoordsQ p.2 := by
  induction es with
  | nil => simp [CoordsQEntries]
  | cons p es ih =>
    cases p with
    | mk k v => simp [CoordsQEntries, ih, and_assoc]

/-- Membership form of `SortedKEntries`, stable under permutation. -/
theorem sortedKEntries_iff (es : List (String × Json)) :
    SortedKEntries es ↔ ∀ p ∈ es, SortedK p.2 := by
  induction es with
  | nil => simp [SortedKEntries]
  | cons p es ih =>
    cases p with
    | mk k v => simp [SortedKEntries, ih]

mutual

/-- `removeMetadataNoise` eliminates every metadata field. -/
theorem remMeta_noMeta : ∀ j, NoMeta (remMeta j)
  | .obj es => remMetaEntries_noMeta es
  | .arr xs => remMetaList_noMeta xs
  | .null => trivial
  | .bool _ => trivial
  | .num _ => trivial
  | .str _ => trivial

theorem remMetaEntries_noMeta : ∀ es, NoMetaEntries (remMetaEntries es)
  | [] => trivial
  | (k, v) :: es => by
    by_cases hk : k ∈ metaFields
    · simpa [remMetaEntries, hk] using remMetaEntries_noMeta es
    · simpa [remMetaEntries, hk] using
        ⟨hk, remMeta_noMeta v, remMetaEntries_noMeta es⟩

theorem remMetaList_noMeta : ∀ xs, NoMetaList (remMetaList xs)
  | [] => trivial
  | x :: xs => ⟨remMeta_noMeta x, remMetaList_noMeta xs⟩

end

mutual

/-- A tree without metadata fields is a fixed point of `removeMetadataNoise`. -/
theorem remMeta_fix : ∀ j, NoMeta j → remMeta j = j
  | .obj es, h => congrArg Json.obj (remMetaEntries_fix es h)
  | .arr xs, h => congrArg Json.arr (remMetaList_fix xs h)
  | .null, _ => rfl
  | .bool _, _ => rfl
  | .num _, _ => rfl
  | .str _, _ => rfl

theorem remMetaEntries_fix : ∀ es, NoMetaEntries es → remMetaEntries es = es
  | [], _ => rfl
  | (k, v) :: es, h => by
    obtain ⟨hk, hv, hes⟩ := h
    simp [remMetaEntries, hk, remMeta_fix v hv, remMetaEntries_fix es hes]

theorem remMetaList_fix : ∀ xs, NoMetaList xs → remMetaList xs = xs
  | [], _ => rfl
  | x :: xs, h => by
    obtain ⟨hx, hxs⟩ := h
    simp [remMetaList, remMeta_fix x hx, remMetaList_fix xs hxs]

end

/-- `round10 n` is the multiple of 10 nearest to `n`, halves rounded up:
it is divisible by 10 and lies in `[n-4, n+5]` (the unique such multiple). -/
theorem round10_spec (n : Int) :
    (10 : Int) ∣ round10 n ∧ n - 4 ≤ round10 n ∧ round10 n ≤ n + 5 := by
  have h : round10 n = (n + 5) / 10 * 10 := by
    rw [round10, Int.fdiv_eq_ediv _ (by norm_num)]
  rw [h]
  refine ⟨⟨(n + 5) / 10, by ring⟩, ?_, ?_⟩ <;> omega

/-- `round10` is idempotent. -/
theorem round10_idem (n : Int) : round10 (round10 n) = round10 n := by
  have h : ∀ m : Int, round10 m = (m + 5) / 10 * 10 := fun m => by
    rw [round10, Int.fdiv_eq_ediv _ (by norm_num)]
  rw [h, h]
  omega

/-- `normalizeCoord` is idempotent. -/
theorem quantizeVal_idem : ∀ v, quantizeVal (quantizeVal v) = quantizeVal v
  | .num n => by simp [quantizeVal, round10_idem]
  | .null => rfl
  | .bool _ => rfl
  | .str _ => rfl
  | .arr _ => rfl
  | .obj _ => rfl

/-- `normalizeCoord` preserves the coordinate invariant. -/
theorem coordsQ_quantizeVal : ∀ v, CoordsQ v → CoordsQ (quantizeVal v)
  | .num _, _ => trivial
  | .null, h => h
  | .bool _, h => h
  | .str _, h => h
  | .arr _, h => h
  | .obj _, h => h

mutual

/-- `normalizeCoordinates` establishes the coordinate invariant everywhere. -/
theorem normCoords_coordsQ : ∀ j, CoordsQ (normCoords j)
  | .obj es => normCoordsEntries_coordsQ es
  | .arr xs => normCoordsList_coordsQ xs
  | .null => trivial
  | .bool _ => trivial
  | .num _ => trivial
  | .str _ => trivial

theorem normCoordsEntries_coordsQ : ∀ es, CoordsQEntries (normCoordsEntries es)
  | [] => trivial
  | (k, v) :: es => by
    by_cases hxy : k = "x" ∨ k = "y"
    · simp only [normCoordsEntries, if_pos hxy]
      exact ⟨fun _ => quantizeVal_idem (normCoords v),
        coordsQ_quantizeVal _ (normCoords_coordsQ v),
        normCoordsEntries_coordsQ es⟩
    · simp only [normCoordsEntries, if_neg hxy]
      exact ⟨fun hc => absurd hc hxy, normCoords_coordsQ v,
        normCoordsEntries_coordsQ es⟩

theorem normCoordsList_coordsQ : ∀ xs, CoordsQList (normCoordsList xs)
  | [] => trivial
  | x :: xs => ⟨normCoords_coordsQ x, normCoordsList_coordsQ xs⟩

end

mutual

/-- A tree satisfying the coordinate invariant is a fixed point of
`normalizeCoordinates`. -/
theorem normCoords_fix : ∀ j, CoordsQ j → normCoords j = j
  | .obj es, h => congrArg Json.obj (normCoordsEntries_fix es h)
  | .arr xs, h => congrArg Json.arr (normCoordsList_fix xs h)
  | .null, _ => rfl
  | .bool _, _ => rfl
  | .num _, _ => rfl
  | .str _, _ => rfl

theorem normCoordsEntries_fix :
    ∀ es, CoordsQEntries es → normCoordsEntries es = es
  | [], _ => rfl
  | (k, v) :: es, h => by
    obtain ⟨hq, hv, hes⟩ := h
    by_cases hxy : k = "x" ∨ k = "y"
    · simp [normCoordsEntries, hxy, normCoords_fix v hv, hq hxy,
        normCoordsEntries_fix es hes]
    · simp [normCoordsEntries, hxy, normCoords_fix v hv,
        normCoordsEntries_fix es hes]

theorem normCoordsList_fix : ∀ xs, CoordsQList xs → normCoordsList xs = xs
  | [], _ => rfl
  | x :: xs, h => by
    obtain ⟨hx, hxs⟩ := h
    simp [normCoordsList, normCoords_fix x hx, normCoordsList_fix xs hxs]

end

/-- `NoMetaEntries` is stable under the key sort. -/
theorem noMetaEntries_insertionSort (es : List (String × Json)) :
    NoMetaEntries es → NoMetaEntries (List.insertionSort keyLE es) := by
  rw [noMetaEntries_iff, noMetaEntries_iff]
  intro h p hp
  exact h p ((List.mem_insertionSort keyLE).mp hp)

/-- `CoordsQEntries` is stable under the key sort. -/
theorem coordsQEntries_insertionSort (es : List (String × Json)) :
    CoordsQEntries es → CoordsQEntries (List.insertionSort keyLE es) := by
  rw [coordsQEntries_iff, coordsQEntries_iff]
  intro h p hp
  exact h p ((List.mem_insertionSort keyLE).mp hp)

/-- `SortedKEntries` is stable under the key sort. -/
theorem sortedKEntries_insertionSort (es : List (String × Json)) :
    SortedKEntries es → SortedKEntries (List.insertionSort keyLE es) := by
  rw [sortedKEntries_iff, sortedKEntries_iff]
  intro h p hp
  exact h p ((List.mem_insertionSort keyLE).mp hp)

mutual

/-- `sortObjectKeys` sorts every object node. -/
theorem sortKeys_sorted : ∀ j, SortedK (sortKeys j)
  | .obj es =>
    ⟨List.sorted_insertionSort keyLE (sortKeysEntries es),
     sortedKEntries_insertionSort _ (sortKeysEntries_sorted es)⟩
  | .arr xs => sortKeysList_sorted xs
  | .null => trivial
  | .bool _ => trivial
  | .num _ => trivial
  | .str _ => trivial

theorem sortKeysEntries_sorted : ∀ es, SortedKEntries (sortKeysEntries es)
  | [] => trivial
  | (_, v) :: es => ⟨sortKeys_sorted v, sortKeysEntries_sorted es⟩

theorem sortKeysList_sorted : ∀ xs, SortedKList (sortKeysList xs)
  | [] => trivial
  | x :: xs => ⟨sortKeys_sorted x, sortKeysList_sorted xs⟩

end

mutual

/-- A key-sorted tree is a fixed point of `sortObjectKeys`. -/
theorem sortKeys_fix : ∀ j, SortedK j → sortKeys j = j
  | .obj es, h => by
    obtain ⟨hs, he⟩ := h
    simp [sortKeys, sortKeysEntries_fix es he, List.Sorted.insertionSort_eq hs]
  | .arr xs, h => congrArg Json.arr (sortKeysList_fix xs h)
  | .null, _ => rfl
  | .bool _, _ => rfl
  | .num _, _ => rfl
  | .str _, _ => rfl

theorem sortKeysEntries_fix : ∀ es, SortedKEntries es → sortKeysEntries es = es
  | [], _ => rfl
  | (k, v) :: es, h => by
    obtain ⟨hv, hes⟩ := h
    simp [sortKeysEntries, sortKeys_fix v hv, sortKeysEntries_fix es hes]

theorem sortKeysList_fix : ∀ xs, SortedKList xs → sortKeysList xs = xs
  | [], _ => rfl
  | x :: xs, h => by
    obtain ⟨hx, hxs⟩ := h
    simp [sortKeysList, sortKeys_fix x hx, sortKeysList_fix xs hxs]

end

/-- `normalizeCoord` touches no object structure, so it preserves `NoMeta`. -/
theorem noMeta_quantizeVal : ∀ v, NoMeta v → NoMeta (quantizeVal v)
  | .num _, _ => trivial
  | .null, h => h
  | .bool _, h => h
  | .str _, h => h
  | .arr _, h => h
  | .obj _, h => h

mutual

/-- `normalizeCoordinates` preserves `NoMeta`. -/
theorem normCoords_noMeta : ∀ j, NoMeta j → NoMeta (normCoords j)
  | .obj es, h => normCoordsEntries_noMeta es h
  | .arr xs, h => normCoordsList_noMeta xs h
  | .null, h => h
  | .bool _, h => h
  | .num _, h => h
  | .str _, h => h

theorem normCoordsEntries_noMeta :
    ∀ es, NoMetaEntries es → NoMetaEntries (normCoordsEntries es)
  | [], h => h
  | (k, v) :: es, h => by
    obtain ⟨hk, hv, hes⟩ := h
    by_cases hxy : k = "x" ∨ k = "y"
    · simpa [normCoordsEntries, hxy] using
        ⟨hk, noMeta_quantizeVal _ (normCoords_noMeta v hv),
          normCoordsEntries_noMeta es hes⟩
    · simpa [normCoordsEntries, hxy] using
        ⟨hk, normCoords_noMeta v hv, normCoordsEntries_noMeta es hes⟩

theorem normCoordsList_noMeta :
    ∀ xs, NoMetaList xs → NoMetaList (normCoordsList xs)
  | [], h => h
  | x :: xs, h => by
    obtain ⟨hx, hxs⟩ := h
    exact ⟨normCoords_noMeta x hx, normCoordsList_noMeta xs hxs⟩

end

mutual

/-- `sortObjectKeys` preserves `NoMeta`. -/
theorem sortKeys_noMeta : ∀ j, NoMeta j → NoMeta (sortKeys j)
  | .obj es, h =>
    noMetaEntries_insertionSort _ (sortKeysEntries_noMeta es h)
  | .arr xs, h => sortKeysList_noMeta xs h
  | .null, h => h
  | .bool _, h => h
  | .num _, h => h
  | .str _, h => h

theorem sortKeysEntries_noMeta :
    ∀ es, NoMetaEntries es → NoMetaEntries (sortKeysEntries es)
  | [], h => h
  | (k, v) :: es, h => by
    obtain ⟨hk, hv, hes⟩ := h
    exact ⟨hk, sortKeys_noMeta v hv, sortKeysEntries_noMeta es hes⟩

theorem sortKeysList_noMeta :
    ∀ xs, NoMetaList xs → NoMetaList (sortKeysList xs)
  | [], h => h
  | x :: xs, h => by
    obtain ⟨hx, hxs⟩ := h
    exact ⟨sortKeys_noMeta x hx, sortKeysList_noMeta xs hxs⟩

end

/-- A `quantizeVal` fixed point stays one after `sortObjectKeys`. -/
theorem quantizeVal_fix_sortKeys :
    ∀ v, quantizeVal v = v → quantizeVal (sortKeys v) = sortKeys v
  | .num _, h => h
  | .null, _ => rfl
  | .bool _, _ => rfl
  | .str _, _ => rfl
  | .arr _, _ => rfl
  | .obj _, _ => rfl

/-- A `quantizeVal` fixed point stays one after `cleanObject`. -/
theorem quantizeVal_fix_cleanV :
    ∀ v, quantizeVal v = v → quantizeVal (cleanV v) = cleanV v
  | .num _, h => h
  | .null, _ => rfl
  | .bool _, _ => rfl
  | .str _, _ => rfl
  | .arr _, _ => rfl
  | .obj _, _ => rfl

mutual

/-- `sortObjectKeys` preserves the coordinate invariant. -/
theorem sortKeys_coordsQ : ∀ j, CoordsQ j → CoordsQ (sortKeys j)
  | .obj es, h =>
    coordsQEntries_insertionSort _ (sortKeysEntries_coordsQ es h)
  | .arr xs, h => sortKeysList_coordsQ xs h
  | .null, h => h
  | .bool _, h => h
  | .num _, h => h
  | .str _, h => h

theorem sortKeysEntries_coordsQ :
    ∀ es, CoordsQEntries es → CoordsQEntries (sortKeysEntries es)
  | [], h => h
  | (k, v) :: es, h => by
    obtain ⟨hq, hv, hes⟩ := h
    exact ⟨fun hxy => quantizeVal_fix_sortKeys v (hq hxy),
      sortKeys_coordsQ v hv, sortKeysEntries_coordsQ es hes⟩

theorem sortKeysList_coordsQ :
    ∀ xs, CoordsQList xs → CoordsQList (sortKeysList xs)
  | [], h => h
  | x :: xs, h => by
    obtain ⟨hx, hxs⟩ := h
    exact ⟨sortKeys_coordsQ x hx, sortKeysList_coordsQ xs hxs⟩

end

/-- Every key of `cleanEntries es` is a key of `es`. -/
theorem cleanEntries_key_sub :
    ∀ (es : List (String × Json)) (p : String × Json),
      p ∈ cleanEntries es → ∃ a ∈ es, p.1 = a.1 := by
  intro es
  induction es with
  | nil => intro p hp; simp [cleanEntries] at hp
  | cons a es ih =>
    intro p hp
    obtain ⟨k, v⟩ := a
    by_cases hdrop : (isNull (cleanV v) || isEmptyArr (cleanV v)) = true
    · simp only [cleanEntries, hdrop, if_pos] at hp
      obtain ⟨a, ha, hk⟩ := ih p hp
      exact ⟨a, List.mem_cons_of_mem _ ha, hk⟩
    · simp only [cleanEntries, hdrop, if_neg] at hp
      rcases List.mem_cons.mp hp with hph | hpt
      · exact ⟨(k, v), List.mem_cons_self _ _, by rw [hph]⟩
      · obtain ⟨a, ha, hk⟩ := ih p hpt
        exact ⟨a, List.mem_cons_of_mem _ ha, hk⟩

/-- `cleanObject` keeps object entries sorted by key. -/
theorem cleanEntries_pairwise :
    ∀ es, List.Pairwise keyLE es → List.Pairwise keyLE (cleanEntries es) := by
  intro es
  induction es with
  | nil => intro _; simp [cleanEntries]
  | cons a es ih =>
    intro h
    obtain ⟨k, v⟩ := a
    rw [List.pairwise_cons] at h
    obtain ⟨hrel, hes⟩ := h
    by_cases hdrop : (isNull (cleanV v) || isEmptyArr (cleanV v)) = true
    · simp only [cleanEntries, hdrop, if_pos]
      exact ih hes
    · simp [cleanEntries, hdrop]
      refine ⟨?_, ih hes⟩
      intro a b hb
      obtain ⟨a2, ha2, hk2⟩ := cleanEntries_key_sub es (a, b) hb
      have hka : keyLE (k, v) a2 := hrel a2 ha2
      simp only [keyLE] at hka ⊢
      rw [show a = a2.1 from hk2]
      exact hka

mutual

/-- `cleanObject` preserves sortedness of every object node. -/
theorem cleanV_sortedK : ∀ j, SortedK j → SortedK (cleanV j)
  | .obj es, h => by
    obtain ⟨hs, he⟩ := h
    exact ⟨cleanEntries_pairwise es hs, cleanEntries_sortedK es he⟩
  | .arr xs, h => cleanList_sortedK xs h
  | .null, h => h
  | .bool _, h => h
  | .num _, h => h
  | .str _, h => h

theorem cleanEntries_sortedK :
    ∀ es, SortedKEntries es → SortedKEntries (cleanEntries es)
  | [], h => h
  | (k, v) :: es, h => by
    obtain ⟨hv, hes⟩ := h
    by_cases hdrop : (isNull (cleanV v) || isEmptyArr (cleanV v)) = true
    · simpa only [cleanEntries, hdrop, if_pos] using cleanEntries_sortedK es hes
    · simp only [cleanEntries, hdrop, if_neg]
      exact ⟨cleanV_sortedK v hv, cleanEntries_sortedK es hes⟩

theorem cleanList_sortedK :
    ∀ xs, SortedKList xs → SortedKList (cleanList xs)
  | [], h => h
  | x :: xs, h => by
    obtain ⟨hx, hxs⟩ := h
    by_cases hdrop : isNull (cleanV x) = true
    · simpa only [cleanList, hdrop, if_pos] using cleanList_sortedK xs hxs
    · simp only [cleanList, hdrop, if_neg]
      exact ⟨cleanV_sortedK x hx, cleanList_sortedK xs hxs⟩

end

mutual

/-- `cleanObject` preserves `NoMeta`. -/
theorem cleanV_noMeta : ∀ j, NoMeta j → NoMeta (cleanV j)
  | .obj es, h => cleanEntries_noMeta es h
  | .arr xs, h => cleanList_noMeta xs h
  | .null, h => h
  | .bool _, h => h
  | .num _, h => h
  | .str _, h => h

theorem cleanEntries_noMeta :
    ∀ es, NoMetaEntries es → NoMetaEntries (cleanEntries es)
  | [], h => h
  | (k, v) :: es, h => by
    obtain ⟨hk, hv, hes⟩ := h
    by_cases hdrop : (isNull (cleanV v) || isEmptyArr (cleanV v)) = true
    · simpa only [cleanEntries, hdrop, if_pos] using cleanEntries_noMeta es hes
    · simp only [cleanEntries, hdrop, if_neg]
      exact ⟨hk, cleanV_noMeta v hv, cleanEntries_noMeta es hes⟩

theorem cleanList_noMeta :
    ∀ xs, NoMetaList xs → NoMetaList (cleanList xs)
  | [], h => h
  | x :: xs, h => by
    obtain ⟨hx, hxs⟩ := h
    by_cases hdrop : isNull (cleanV x) = true
    · simpa only [cleanList, hdrop, if_pos] using cleanList_noMeta xs hxs
    · simp only [cleanList, hdrop, if_neg]
      exact ⟨cleanV_noMeta x hx, cleanList_noMeta xs hxs⟩

end

mutual

/-- `cleanObject` preserves the coordinate invariant. -/
theorem cleanV_coordsQ : ∀ j, CoordsQ j → CoordsQ (cleanV j)
  | .obj es, h => cleanEntries_coordsQ es h
  | .arr xs, h => cleanList_coordsQ xs h
  | .null, h => h
  | .bool _, h => h
  | .num _, h => h
  | .str _, h => h

theorem cleanEntries_coordsQ :
    ∀ es, CoordsQEntries es → CoordsQEntries (cleanEntries es)
  | [], h => h
  | (k, v) :: es, h => by
    obtain ⟨hq, hv, hes⟩ := h
    by_cases hdrop : (isNull (cleanV v) || isEmptyArr (cleanV v)) = true
    · simpa only [cleanEntries, hdrop, if_pos] using cleanEntries_coordsQ es hes
    · simp only [cleanEntries, hdrop, if_neg]
      exact ⟨fun hxy => quantizeVal_fix_cleanV v (hq hxy),
        cleanV_coordsQ v hv, cleanEntries_coordsQ es hes⟩

theorem cleanList_coordsQ :
    ∀ xs, CoordsQList xs → CoordsQList (cleanList xs)
  | [], h => h
  | x :: xs, h => by
    obtain ⟨hx, hxs⟩ := h
    by_cases hdrop : isNull (cleanV x) = true
    · simpa only [cleanList, hdrop, if_pos] using cleanList_coordsQ xs hxs
    · simp only [cleanList, hdrop, if_neg]
      exact ⟨cleanV_coordsQ x hx, cleanList_coordsQ xs hxs⟩

end

mutual

/-- `cleanObject` is idempotent. -/
theorem cleanV_idem : ∀ j, cleanV (cleanV j) = cleanV j
  | .obj es => congrArg Json.obj (cleanEntries_idem es)
  | .arr xs => congrArg Json.arr (cleanList_idem xs)
  | .null => rfl
  | .bool _ => rfl
  | .num _ => rfl
  | .str _ => rfl

theorem cleanEntries_idem :
    ∀ es, cleanEntries (cleanEntries es) = cleanEntries es
  | [] => rfl
  | (k, v) :: es => by
    by_cases hdrop : (isNull (cleanV v) || isEmptyArr (cleanV v)) = true
    · simp only [cleanEntries, hdrop, if_pos]
      exact cleanEntries_idem es
    · simp [cleanEntries, hdrop, cleanV_idem v, cleanEntries_idem es]

theorem cleanList_idem : ∀ xs, cleanList (cleanList xs) = cleanList xs
  | [] => rfl
  | x :: xs => by
    by_cases hdrop : isNull (cleanV x) = true
    · simp only [cleanList, hdrop, if_pos]
      exact cleanList_idem xs
    · simp [cleanList, hdrop, cleanV_idem x, cleanList_idem xs]

end

/-- The top-level clean pass preserves `NoMeta` on object entries. -/
theorem mapClean_noMetaEntries :
    ∀ es, NoMetaEntries es →
      NoMetaEntries (es.map (fun p => (p.1, cleanV p.2)))
  | [], h => h
  | (k, v) :: es, h => by
    obtain ⟨hk, hv, hes⟩ := h
    exact ⟨hk, cleanV_noMeta v hv, mapClean_noMetaEntries es hes⟩

/-- The top-level clean pass preserves `NoMeta` on array items. -/
theorem mapClean_noMetaList :
    ∀ xs, NoMetaList xs → NoMetaList (xs.map cleanV)
  | [], h => h
  | x :: xs, h => by
    obtain ⟨hx, hxs⟩ := h
    exact ⟨cleanV_noMeta x hx, mapClean_noMetaList xs hxs⟩

/-- `removeEmptyValues` preserves `NoMeta`. -/
theorem removeEmptyTop_noMeta : ∀ j, NoMeta j → NoMeta (removeEmptyTop j)
  | .obj es, h => mapClean_noMetaEntries es h
  | .arr xs, h => mapClean_noMetaList xs h
  | .null, h => h
  | .bool _, h => h
  | .num _, h => h
  | .str _, h => h

/-- The top-level clean pass preserves the coordinate invariant on entries. -/
theorem mapClean_coordsQEntries :
    ∀ es, CoordsQEntries es →
      CoordsQEntries (es.map (fun p => (p.1, cleanV p.2)))
  | [], h => h
  | (k, v) :: es, h => by
    obtain ⟨hq, hv, hes⟩ := h
    exact ⟨fun hxy => quantizeVal_fix_cleanV v (hq hxy),
      cleanV_coordsQ v hv, mapClean_coordsQEntries es hes⟩

/-- The top-level clean pass preserves the coordinate invariant on items. -/
theorem mapClean_coordsQList :
    ∀ xs, CoordsQList xs → CoordsQList (xs.map cleanV)
  | [], h => h
  | x :: xs, h => by
    obtain ⟨hx, hxs⟩ := h
    exact ⟨cleanV_coordsQ x hx, mapClean_coordsQList xs hxs⟩

/-- `removeEmptyValues` preserves the coordinate invariant. -/
theorem removeEmptyTop_coordsQ : ∀ j, CoordsQ j → CoordsQ (removeEmptyTop j)
  | .obj es, h => mapClean_coordsQEntries es h
  | .arr xs, h => mapClean_coordsQList xs h
  | .null, h => h
  | .bool _, h => h
  | .num _, h => h
  | .str _, h => h

/-- The top-level clean pass preserves recursive sortedness on entries. -/
theorem mapClean_sortedKEntries :
    ∀ es, SortedKEntries es →
      SortedKEntries (es.map (fun p => (p.1, cleanV p.2)))
  | [], h => h
  | (k, v) :: es, h => by
    obtain ⟨hv, hes⟩ := h
    exact ⟨cleanV_sortedK v hv, mapClean_sortedKEntries es hes⟩

/-- The top-level clean pass preserves recursive sortedness on items. -/
theorem mapClean_sortedKList :
    ∀ xs, SortedKList xs → SortedKList (xs.map cleanV)
  | [], h => h
  | x :: xs, h => by
    obtain ⟨hx, hxs⟩ := h
    exact ⟨cleanV_sortedK x hx, mapClean_sortedKList xs hxs⟩

/-- `removeEmptyValues` preserves sortedness. -/
theorem removeEmptyTop_sortedK : ∀ j, SortedK j → SortedK (removeEmptyTop j)
  | .obj es, h => by
    obtain ⟨hs, he⟩ := h
    refine ⟨?_, mapClean_sortedKEntries es he⟩
    have := List.pairwise_map (f := fun p : String × Json => (p.1, cleanV p.2))
      (R := keyLE) (l := es)
    exact this.mpr (hs.imp (fun h => h))
  | .arr xs, h => mapClean_sortedKList xs h
  | .null, h => h
  | .bool _, h => h
  | .num _, h => h
  | .str _, h => h

/-- `removeEmptyValues` is idempotent. -/
theorem removeEmptyTop_idem :
    ∀ j, removeEmptyTop (removeEmptyTop j) = removeEmptyTop j
  | .obj es => by
    simp only [removeEmptyTop, List.map_map]
    refine congrArg Json.obj (List.map_congr_left ?_)
    intro a _
    simp [Function.comp, cleanV_idem]
  | .arr xs => by
    simp only [removeEmptyTop, List.map_map]
    refine congrArg Json.arr (List.map_congr_left ?_)
    intro a _
    simp [Function.comp, cleanV_idem]
  | .null => rfl
  | .bool _ => rfl
  | .num _ => rfl
  | .str _ => rfl

/-- `normalize` on a non-null root runs the four passes. -/
theorem normalize_eq (j : Json) (hj : j ≠ Json.null) :
    normalize j = some (removeEmptyTop (sortKeys (normCoords (remMeta j)))) := by
  cases j with
  | null => exact absurd rfl hj
  | bool b => rfl
  | num n => rfl
  | str s => rfl
  | arr xs => rfl
  | obj es => rfl

/-- The pass pipeline maps a non-null root to a non-null root. -/
theorem normCore_ne_null (j : Json) (hj : j ≠ Json.null) :
    removeEmptyTop (sortKeys (normCoords (remMeta j))) ≠ Json.null := by
  cases j with
  | null => exact absurd rfl hj
  | bool b => simp [remMeta, normCoords, sortKeys, removeEmptyTop]
  | num n => simp [remMeta, normCoords, sortKeys, removeEmptyTop]
  | str s => simp [remMeta, normCoords, sortKeys, removeEmptyTop]
  | arr xs => simp [remMeta, normCoords, sortKeys, removeEmptyTop]
  | obj es => simp [remMeta, normCoords, sortKeys, removeEmptyTop]

/-- C5.  For every well-formed JSON-like input tree, applying normalization
(metadata removal, coordinate quantization, key sorting, empty-value pruning)
a second time changes nothing: wherever `normalize` produces a value, running
`normalize` again returns exactly that value (Kleisli idempotence; the only
input with no value is the `null` root, where JS throws before producing
output). -/
theorem normalize_idempotent (j : Json) :
    (normalize j).bind normalize = normalize j := by
  by_cases hj : j = Json.null
  · subst hj; rfl
  · rw [normalize_eq j hj]
    have hyn := normCore_ne_null j hj
    show normalize (removeEmptyTop (sortKeys (normCoords (remMeta j)))) = _
    rw [normalize_eq _ hyn]
    have hNM : NoMeta (removeEmptyTop (sortKeys (normCoords (remMeta j)))) :=
      removeEmptyTop_noMeta _ (sortKeys_noMeta _
        (normCoords_noMeta _ (remMeta_noMeta j)))
    have hCQ : CoordsQ (removeEmptyTop (sortKeys (normCoords (remMeta j)))) :=
      removeEmptyTop_coordsQ _ (sortKeys_coordsQ _
        (normCoords_coordsQ (remMeta j)))
    have hSK : SortedK (removeEmptyTop (sortKeys (normCoords (remMeta j)))) :=
      removeEmptyTop_sortedK _ (sortKeys_sorted (normCoords (remMeta j)))
    rw [remMeta_fix _ hNM, normCoords_fix _ hCQ, sortKeys_fix _ hSK,
      removeEmptyTop_idem]

/-- C6.  `normalizeCoordinates` replaces the value of every numeric field
named `x` or `y` at every object node with the nearest multiple of 10 under
round-half-up — the entry-wise recursion applies `quantizeVal` exactly to the
`x`/`y` fields, `quantizeVal` maps an integer `n` to `round10 n`, which is the
unique multiple of 10 in `[n-4, n+5]` (so halves round up; 123 becomes 120 and
456 becomes 460) — and leaves non-numeric values of those fields unchanged;
afterwards every `x`/`y` field anywhere in the tree is a `quantizeVal` fixed
point. -/
theorem normalizeCoordinates_quantizes :
    (∀ es, normCoords (Json.obj es) = Json.obj (normCoordsEntries es)) ∧
    (∀ k v es, normCoordsEntries ((k, v) :: es) =
      (k, if k = "x" ∨ k = "y" then quantizeVal (normCoords v)
          else normCoords v) :: normCoordsEntries es) ∧
    (∀ n, quantizeVal (Json.num n) = Json.num (round10 n)) ∧
    (∀ n : Int, (10 : Int) ∣ round10 n ∧ n - 4 ≤ round10 n ∧ round10 n ≤ n + 5) ∧
    round10 123 = 120 ∧ round10 456 = 460 ∧
    (∀ s, quantizeVal (Json.str s) = Json.str s) ∧
    (∀ b, quantizeVal (Json.bool b) = Json.bool b) ∧
    quantizeVal Json.null = Json.null ∧
    (∀ xs, quantizeVal (Json.arr xs) = Json.arr xs) ∧
    (∀ es, quantizeVal (Json.obj es) = Json.obj es) ∧
    (∀ j, CoordsQ (normCoords j)) :=
  ⟨fun _ => rfl, fun _ _ _ => rfl, fun _ => rfl, round10_spec,
   by decide, by decide, fun _ => rfl, fun _ => rfl, rfl, fun _ => rfl,
   fun _ => rfl, normCoords_coordsQ⟩

/-- C7 counterexample: `normalize` is not total — on the well-formed JSON
root `null`, `sortObjects` reaches `Object.keys(null)`, which throws a
`TypeError` in JS, so `normalize null` produces no value. -/
theorem normalize_null_fails : normalize Json.null = none := rfl

/-- C7 as amended: `normalize` returns without error for every well-formed
JSON-like tree except a `null` root (where `Object.keys(null)` throws), and
number, string and boolean roots are passed through unchanged.  (Purity —
operating on a deep copy without mutating the input — is inherent in this
embedding: `normalize` is a function on immutable trees.) -/
theorem normalize_total_except_null :
    (∀ j, normalize j = none ↔ j = Json.null) ∧
    (∀ n, normalize (Json.num n) = some (Json.num n)) ∧
    (∀ s, normalize (Json.str s) = some (Json.str s)) ∧
    (∀ b, normalize (Json.bool b) = some (Json.bool b)) := by
  refine ⟨?_, fun _ => rfl, fun _ => rfl, fun _ => rfl⟩
  intro j
  constructor
  · intro h
    by_cases hj : j = Json.null
    · exact hj
    · rw [normalize_eq j hj] at h
      cases h
  · intro h
    subst h
    rfl

/-! ### The flow/environment validator (scripts/validate.js) -/

/-- JS `s.includes(pat)`: substring test. -/
def strIncludes (s pat : String) : Bool :=
  s.data.tails.any (fun t => pat.data.isPrefixOf t)

/-- JS `s.startsWith(pat)`. -/
def strStartsWith (s pat : String) : Bool :=
  pat.data.isPrefixOf s.data

/-- JS `s.indexOf(pat)` over an explicit position counter. -/
def idxGo (pat : List Char) : List Char → Nat → Option Nat
  | [], i => if pat.isPrefixOf [] then some i else none
  | l@(_ :: cs), i => if pat.isPrefixOf l then some i else idxGo pat cs (i + 1)

/-- JS `s.indexOf(pat)` (as `Option`: `none` for JS `-1`). -/
def strIndexOf (s pat : String) : Option Nat :=
  idxGo pat.data s.data 0

/-- Atoms of the regex literal `/\\$\\\x7b([^\x7d]+)\\\x7d/g` at
validate.js:253 and 321: the doubled backslashes make `\\` a literal
backslash atom, leaving the following `$` an unescaped end-of-input anchor. -/
inductive RAtom where
  | lit (c : Char)
  | endAnchor
  | negPlus (c : Char)

/-- Greedy backtracking for a `([^c]+)` group: try the longest candidate run
first, then shorter ones, resuming the rest of the pattern each time. -/
def tryLens (f : List Char → Option (List (List Char) × List Char))
    (run rest : List Char) : Nat → Option (List (List Char) × List Char)
  | 0 => none
  | k + 1 =>
    match f (run.drop (k + 1) ++ rest) with
    | some (gs, r) => some (run.take (k + 1) :: gs, r)
    | none => tryLens f run rest k

/-- A backtracking regex matcher at a fixed start position, returning the
captured groups and the input remaining after the match. -/
def raMatch : List RAtom → List Char → Option (List (List Char) × List Char)
  | [], l => some ([], l)
  | .lit _ :: _, [] => none
  | .lit c :: ps, d :: rest => if d = c then raMatch ps rest else none
  | .endAnchor :: ps, l => if l.isEmpty then raMatch ps l else none
  | .negPlus c :: ps, l =>
    let run := l.takeWhile (· ≠ c)
    tryLens (raMatch ps) run (l.drop run.length) run.length

/-- The token pattern as validate.js actually spells it:
`\\` (literal backslash), `$` (end anchor, since it is not escaped),
`\\` (literal backslash), `\x7b`, `([^\x7d]+)`, `\\` (literal backslash),
`\x7d`.  Contrast render.js:17, whose pattern has single backslashes. -/
def valTokenPattern : List RAtom :=
  [.lit '\\', .endAnchor, .lit '\\', .lit '\x7b',
   .negPlus '\x7d', .lit '\\', .lit '\x7d']

/-- The `exec` loop of a global regex: try each position left to right;
after a match, resume after its end (advancing one character on a zero-width
match, as the JS engine bumps `lastIndex`); collect the first capture group.
Fuel bounds the number of attempts — `length + 1` suffices because every
step consumes at least one character. -/
def scanAllFuel (p : List RAtom) : Nat → List Char → List String
  | 0, _ => []
  | n + 1, l =>
    match raMatch p l with
    | some (gs, rest) =>
      String.mk (gs.headD []) ::
        (if rest.length < l.length then scanAllFuel p n rest
         else scanAllFuel p n l.tail)
    | none =>
      match l with
      | [] => []
      | _ :: cs => scanAllFuel p n cs

/-- All first-group captures of a global regex over a text. -/
def scanAll (p : List RAtom) (l : List Char) : List String :=
  scanAllFuel p (l.length + 1) l

/-- An environment configuration as validate.js reads it from `env/*.yaml`:
`connect.instance_id`, `connect.instance_arn`, `connect.region` and the
`tokens` tree. -/
structure Config where
  instance_id : String
  instance_arn : String
  region : String
  tokens : Tok

/-- validate.js:172, the instance-mismatch error text. -/
def instanceMismatchMsg (envPath ctx : String) : String :=
  "Instance ID mismatch in " ++ envPath ++ " (" ++ ctx ++
    "): ARN doesn't match configured instance ID"

/-- validate.js:171, the mismatch condition: the ARN contains `/instance/`
but not `/instance/<instanceId>` as a substring. -/
def arnMismatch (instanceId arn : String) : Bool :=
  strIncludes arn "/instance/" && !(strIncludes arn ("/instance/" ++ instanceId))

/-- validate.js:170-174, `checkConnectArn`. -/
def checkConnectArn (instanceId envPath ctx arn : String) : List String :=
  if arnMismatch instanceId arn then [instanceMismatchMsg envPath ctx]
  else []

/-- validate.js:180-184: the entries of one token category; only string
values containing `arn:aws:connect:` are checked. -/
def connectEntriesErrors (instanceId envPath tokenType : String) :
    List (String × Tok) → List String
  | [] => []
  | (name, .str arn) :: es =>
    (if strIncludes arn "arn:aws:connect:" then
      checkConnectArn instanceId envPath (tokenType ++ "." ++ name) arn
     else []) ++ connectEntriesErrors instanceId envPath tokenType es
  | (_, _) :: es => connectEntriesErrors instanceId envPath tokenType es

/-- One token category: skipped when absent or not a mapping (a falsy value
is skipped by `if (config.tokens[tokenType])`; a truthy scalar has no
string-valued own entries). -/
def connectTypeErrors (instanceId envPath tokenType : String)
    (tokens : List (String × Tok)) : List String :=
  match List.lookup tokenType tokens with
  | some (.node es) => connectEntriesErrors instanceId envPath tokenType es
  | _ => []

/-- validate.js:167-188, `validateInstanceConsistency`: check the `Queue`,
`Prompt` and `Lex` categories in that order. -/
def validateInstanceConsistency (c : Config) (envPath : String) : List String :=
  match c.tokens with
  | .node tes =>
    connectTypeErrors c.instance_id envPath "Queue" tes ++
    connectTypeErrors c.instance_id envPath "Prompt" tes ++
    connectTypeErrors c.instance_id envPath "Lex" tes
  | _ => []

/-- The first capture of `/arn:aws:[^:]+:([^:]*)/` (validate.js:141): scan
for `arn:aws:`, require a nonempty colon-free service segment and a colon,
then capture the colon-free run that follows. -/
def arnRegionScan : List Char → Option String
  | [] => none
  | l@(_ :: cs) =>
    if "arn:aws:".data.isPrefixOf l then
      let rest := l.drop 8
      let svc := rest.takeWhile (· ≠ ':')
      match svc, rest.drop svc.length with
      | _ :: _, ':' :: r2 => some (String.mk (r2.takeWhile (· ≠ ':')))
      | _, _ => arnRegionScan cs
    else arnRegionScan cs

/-- validate.js:146, the region-mismatch warning text. -/
def regionMismatchMsg (envPath ctx expected got : String) : String :=
  "ARN region mismatch in " ++ envPath ++ " (" ++ ctx ++ "): expected " ++
    expected ++ ", got " ++ got

/-- validate.js:143-148, `checkArn`: warn when the matched region segment is
nonempty and differs from `connect.region`. -/
def checkArnRegion (region envPath ctx arn : String) : List String :=
  match arnRegionScan arn.data with
  | some r => if r ≠ "" ∧ r ≠ region then [regionMismatchMsg envPath ctx region r] else []
  | none => []

/-- validate.js:154-158: the string-valued entries of one token category that
start with `arn:aws:`. -/
def regionInnerWarnings (region envPath tokenType : String) :
    List (String × Tok) → List String
  | [] => []
  | (name, .str arn) :: es =>
    (if strStartsWith arn "arn:aws:" then
      checkArnRegion region envPath (tokenType ++ "." ++ name) arn
     else []) ++ regionInnerWarnings region envPath tokenType es
  | (_, _) :: es => regionInnerWarnings region envPath tokenType es

/-- validate.js:151-161: iterate the token categories; `typeof tokens ===
'object'` also admits `null`, on which `Object.entries(null)` throws a
`TypeError` — warnings pushed before the throw are kept, the thrown message
is returned alongside. -/
def regionEntries (region envPath : String) :
    List (String × Tok) → List String × Option String
  | [] => ([], none)
  | (tokenType, v) :: es =>
    match v with
    | .node inner =>
      let ws := regionInnerWarnings region envPath tokenType inner
      let (ws2, thrown) := regionEntries region envPath es
      (ws ++ ws2, thrown)
    | .null => ([], some "Cannot convert undefined or null to object")
    | _ => regionEntries region envPath es

/-- validate.js:139-162, `validateConsistentRegion`, with a possible JS
`TypeError` as the second component. -/
def regionCheck (c : Config) (envPath : String) : List String × Option String :=
  match c.tokens with
  | .node tes => regionEntries c.region envPath tes
  | _ => ([], none)

/-- The `FlowValidator` accumulator (validate.js:14-18): `this.errors` and
`this.warnings`, both starting empty. -/
structure VState where
  errors : List String
  warnings : List String

/-- `new FlowValidator()`. -/
def newValidator : VState := ⟨[], []⟩

/-- validate.js:386-389, `addError`: push onto `this.errors`. -/
def addError (s : VState) (msg : String) : VState :=
  { s with errors := s.errors ++ [msg] }

/-- validate.js:394-397, `addWarning`: push onto `this.warnings`. -/
def addWarning (s : VState) (msg : String) : VState :=
  { s with warnings := s.warnings ++ [msg] }

/-- Push a batch of errors in order. -/
def addErrors (s : VState) (msgs : List String) : VState :=
  msgs.foldl addError s

/-- Push a batch of warnings in order. -/
def addWarnings (s : VState) (msgs : List String) : VState :=
  msgs.foldl addWarning s

/-- The outcome of reading one `env/<name>.yaml` file: whether it exists,
what `fs.readFile` + `yaml.parse` yield (an error is the thrown message), and
the external Joi schema verdict on the parsed configuration
(validate.js:68-123). -/
structure EnvFileOutcome where
  found : Bool
  readParse : Except String Config
  joiError : Option String

/-- One flow directory under the flows directory: its name, its
`flow.json.tmpl` content when the file exists, and the external
`JSON.parse` verdict on that content. -/
structure FlowEntry where
  name : String
  template : Option String
  parse : Except String Unit

/-- The file-system inputs a `validateAll` run observes. -/
structure VInputs where
  envDir : String
  flowsDir : String
  dev : EnvFileOutcome
  test : EnvFileOutcome
  prod : EnvFileOutcome
  flows : Option (List FlowEntry)

/-- validate.js:47, the fixed environment file list. -/
def envPairs (inp : VInputs) : List (String × EnvFileOutcome) :=
  [("dev.yaml", inp.dev), ("test.yaml", inp.test), ("prod.yaml", inp.prod)]

/-- `path.join(dir, file)` for the simple names involved here. -/
def joinPath (dir file : String) : String :=
  dir ++ "/" ++ file

/-- validate.js:62-134, `validateEnvironmentConfig`: a read/parse failure or
a Joi error is one error; otherwise run the region check (whose `TypeError`
on a `null` token category is caught by the surrounding `try`, keeping the
warnings already pushed) and then the instance-consistency check. -/
def validateEnvironmentConfig (s : VState) (o : EnvFileOutcome)
    (envPath : String) : VState :=
  match o.readParse with
  | .error m =>
    addError s ("Failed to validate environment config " ++ envPath ++ ": " ++ m)
  | .ok config =>
    match o.joiError with
    | some m => addError s ("Invalid environment config " ++ envPath ++ ": " ++ m)
    | none =>
      let (ws, thrown) := regionCheck config envPath
      let s1 := addWarnings s ws
      match thrown with
      | some m =>
        addError s1 ("Failed to validate environment config " ++ envPath ++ ": " ++ m)
      | none => addErrors s1 (validateInstanceConsistency config envPath)

/-- validate.js:44-57, `validateEnvironmentConfigs`: each of the three fixed
environment files is validated when present, or reported as an error. -/
def validateEnvironmentConfigs (s : VState) (inp : VInputs) : VState :=
  (envPairs inp).foldl
    (fun st p =>
      if p.2.found then validateEnvironmentConfig st p.2 (joinPath inp.envDir p.1)
      else addError st ("Environment file not found: " ++ p.1))
    s

/-- validate.js:269, the recognized service categories. -/
def validServices : List String :=
  ["Lambda", "Queue", "Prompt", "Lex", "PhoneNumber"]

/-- validate.js:252-274, `validateTokenUsage`: scan the template with the
doubly escaped pattern, then flag malformed paths (error) and unknown
services (warning).  Both checks run for each scanned token — the `forEach`
body has no early exit. -/
def runTokenUsage (s : VState) (content flowName : String) : VState :=
  (scanAll valTokenPattern content.data).foldl
    (fun st token =>
      let parts := jsSplitDot token
      let st1 :=
        if parts.length < 2 then
          addError st ("Invalid token format in " ++ flowName ++ ": $\x7b" ++
            token ++ "\x7d (should be $\x7bService.Entity\x7d)")
        else st
      let service := parts.headD ""
      if service ∈ validServices then st1
      else addWarning st1 ("Unknown service in token " ++ flowName ++ ": " ++ service))
    s

/-- validate.js:279-294, `validateFlowStructure`: warn on missing lifecycle
markers and on a `DisconnectParticipant` occurring before offset 100. -/
def runFlowStructure (s : VState) (content flowName : String) : VState :=
  let s1 :=
    if strIncludes content "StartFlowExecution" then s
    else addWarning s ("Flow " ++ flowName ++ " may be missing StartFlowExecution block")
  let s2 :=
    if strIncludes content "DisconnectParticipant" then s1
    else addWarning s1 ("Flow " ++ flowName ++ " may be missing DisconnectParticipant block")
  if strIncludes content "DisconnectParticipant" &&
      (match strIndexOf content "DisconnectParticipant" with
       | some i => decide (i < 100)
       | none => false) then
    addWarning s2 ("Flow " ++ flowName ++ " may disconnect too early")
  else s2

/-- validate.js:213-247, `validateFlowDirectory`: a missing template is an
error; a template that fails `JSON.parse` without containing `$\x7b` is an
error; otherwise token usage and flow structure are checked. -/
def validateFlowDirectory (s : VState) (f : FlowEntry) : VState :=
  match f.template with
  | none => addError s ("Flow template not found: " ++ f.name ++ "/flow.json.tmpl")
  | some content =>
    match f.parse with
    | .error m =>
      if strIncludes content "$\x7b" then
        runFlowStructure (runTokenUsage s content f.name) content f.name
      else
        addError s ("Invalid JSON in flow template " ++ f.name ++ ": " ++ m)
    | .ok _ => runFlowStructure (runTokenUsage s content f.name) content f.name

/-- validate.js:193-208, `validateFlowTemplates`. -/
def validateFlowTemplates (s : VState) (inp : VInputs) : VState :=
  match inp.flows with
  | none => addError s ("Flows directory not found: " ++ inp.flowsDir)
  | some flows => flows.foldl validateFlowDirectory s

/-- validate.js:367-381, `flattenTokens`: dot-join nested mapping keys; a
non-mapping (or `null`) value is a leaf path. -/
def flattenEntries (pre : String) : List (String × Tok) → List String
  | [] => []
  | (k, v) :: es =>
    let fullKey := if pre = "" then k else pre ++ "." ++ k
    (match v with
     | .node inner => flattenEntries fullKey inner
     | _ => [fullKey]) ++ flattenEntries pre es

/-- The defined token paths of a configuration
(`this.flattenTokens(config.tokens || \x7b\x7d)`, validate.js:351). -/
def definedTokens (tokens : Tok) : List String :=
  match tokens with
  | .node es => flattenEntries "" es
  | _ => []

/-- validate.js:319-341, `collectUsedTokens`: scan every existing template
with the doubly escaped pattern, into a `Set` (first occurrence kept). -/
def collectUsedTokens (flows : List FlowEntry) : List String :=
  (flows.flatMap (fun f =>
    match f.template with
    | some t => scanAll valTokenPattern t.data
    | none => [])).eraseDups

/-- validate.js:346-362, `validateTokensInEnvironment`: re-read the
environment file; every used token missing from its flattened token list is
an error naming the token and the environment file. -/
def validateTokensInEnvironment (s : VState) (o : EnvFileOutcome)
    (usedTokens : List String) (envFile : String) : VState :=
  match o.readParse with
  | .error m =>
    addError s ("Failed to validate tokens in " ++ envFile ++ ": " ++ m)
  | .ok config =>
    usedTokens.foldl
      (fun st token =>
        if token ∈ definedTokens config.tokens then st
        else
          addError st ("Token $\x7b" ++ token ++
            "\x7d used in templates but not defined in " ++ envFile))
      s

/-- validate.js:299-314, `validateTokenCompleteness`: collect used tokens,
then check each existing environment file. -/
def validateTokenCompleteness (s : VState) (flows : List FlowEntry)
    (inp : VInputs) : VState :=
  let usedTokens := collectUsedTokens flows
  (envPairs inp).foldl
    (fun st p =>
      if p.2.found then validateTokensInEnvironment st p.2 usedTokens p.1
      else st)
    s

/-- validate.js:23-39, `validateAll`: the three phases in order, then the
overall verdict `errors.length === 0`.  When the flows directory is missing,
`collectUsedTokens`'s `fs.readdir` throws out of `validateAll` (no `try`
there): the verdict is `none` and the accumulated state stands. -/
def validateAll (s : VState) (inp : VInputs) : VState × Option Bool :=
  let s1 := validateEnvironmentConfigs s inp
  let s2 := validateFlowTemplates s1 inp
  match inp.flows with
  | none => (s2, none)
  | some flows =>
    let s3 := validateTokenCompleteness s2 flows inp
    (s3, some (s3.errors.length == 0))

/-! ### The doubly escaped token pattern never matches (claims C2, C10) -/

/-- The pattern at validate.js:253/321 cannot match at any position: after
the literal backslash the unescaped `$` requires end of input, but two more
literal characters must still follow. -/
theorem raMatch_valTokenPattern : ∀ l, raMatch valTokenPattern l = none
  | [] => rfl
  | d :: rest => by
    by_cases hd : d = '\\'
    · subst hd
      cases rest with
      | nil => rfl
      | cons x xs => rfl
    · show (if d = '\\' then
        raMatch [.endAnchor, .lit '\\', .lit '\x7b', .negPlus '\x7d',
          .lit '\\', .lit '\x7d'] rest else none) = none
      rw [if_neg hd]

/-- The global scan with that pattern finds no token in any text. -/
theorem scanAllFuel_valTokenPattern :
    ∀ n l, scanAllFuel valTokenPattern n l = []
  | 0, _ => rfl
  | n + 1, l => by
    cases l with
    | nil => simp [scanAllFuel, raMatch_valTokenPattern]
    | cons c cs =>
      simp [scanAllFuel, raMatch_valTokenPattern,
        scanAllFuel_valTokenPattern n cs]

theorem scanAll_valTokenPattern (l : List Char) :
    scanAll valTokenPattern l = [] :=
  scanAllFuel_valTokenPattern _ l

/-- `collectUsedTokens` finds no token in any set of templates. -/
theorem collectUsedTokens_nil (flows : List FlowEntry) :
    collectUsedTokens flows = [] := by
  unfold collectUsedTokens
  have h : flows.flatMap (fun f =>
      match f.template with
      | some t => scanAll valTokenPattern t.data
      | none => []) = [] := by
    induction flows with
    | nil => rfl
    | cons f fs ih =>
      cases hft : f.template with
      | none => simpa [List.flatMap_cons, hft] using ih
      | some t =>
        simpa [List.flatMap_cons, hft, scanAll_valTokenPattern] using ih
  rw [h]
  rfl

/-! ### Errors and warnings only ever grow (claim C10) -/

/-- `s'` extends `s`: both lists grew by appending (nothing is removed or
reset). -/
def Grows (s s' : VState) : Prop :=
  ∃ de dw, s'.errors = s.errors ++ de ∧ s'.warnings = s.warnings ++ dw

theorem grows_refl (s : VState) : Grows s s :=
  ⟨[], [], by simp, by simp⟩

theorem grows_trans {a b c : VState} (h1 : Grows a b) (h2 : Grows b c) :
    Grows a c := by
  obtain ⟨de1, dw1, he1, hw1⟩ := h1
  obtain ⟨de2, dw2, he2, hw2⟩ := h2
  exact ⟨de1 ++ de2, dw1 ++ dw2, by rw [he2, he1, List.append_assoc],
    by rw [hw2, hw1, List.append_assoc]⟩

theorem grows_addError (s : VState) (m : String) : Grows s (addError s m) :=
  ⟨[m], [], rfl, by simp [addError]⟩

theorem grows_addWarning (s : VState) (m : String) : Grows s (addWarning s m) :=
  ⟨[], [m], by simp [addWarning], rfl⟩

theorem grows_foldl {α : Type} (f : VState → α → VState)
    (h : ∀ st x, Grows st (f st x)) :
    ∀ (l : List α) (s : VState), Grows s (l.foldl f s)
  | [], s => grows_refl s
  | x :: l, s => grows_trans (h s x) (grows_foldl f h l (f s x))

theorem grows_addErrors (s : VState) (msgs : List String) :
    Grows s (addErrors s msgs) :=
  grows_foldl addError grows_addError msgs s

theorem grows_addWarnings (s : VState) (msgs : List String) :
    Grows s (addWarnings s msgs) :=
  grows_foldl addWarning grows_addWarning msgs s

theorem grows_validateEnvironmentConfig (s : VState) (o : EnvFileOutcome)
    (envPath : String) : Grows s (validateEnvironmentConfig s o envPath) := by
  unfold validateEnvironmentConfig
  split
  · exact grows_addError _ _
  · split
    · exact grows_addError _ _
    · split
      next ws thrown heq =>
        split
        · exact grows_trans (grows_addWarnings s ws) (grows_addError _ _)
        · exact grows_trans (grows_addWarnings s ws) (grows_addErrors _ _)

theorem grows_validateEnvironmentConfigs (s : VState) (inp : VInputs) :
    Grows s (validateEnvironmentConfigs s inp) := by
  unfold validateEnvironmentConfigs
  refine grows_foldl _ ?_ _ s
  intro st p
  by_cases hf : p.2.found
  · simpa [hf] using grows_validateEnvironmentConfig st p.2 (joinPath inp.envDir p.1)
  · simpa [hf] using grows_addError st ("Environment file not found: " ++ p.1)

theorem grows_runTokenUsage (s : VState) (content flowName : String) :
    Grows s (runTokenUsage s content flowName) := by
  unfold runTokenUsage
  refine grows_foldl _ ?_ _ s
  intro st token
  by_cases h2 : (jsSplitDot token).length < 2 <;>
    by_cases hsvc : (jsSplitDot token).headD "" ∈ validServices <;>
      simp only [h2, hsvc, if_pos, if_neg, if_true, if_false] <;>
        first
          | exact grows_refl _
          | exact grows_addError _ _
          | exact grows_addWarning _ _
          | exact grows_trans (grows_addError _ _) (grows_addWarning _ _)

theorem grows_runFlowStructure (s : VState) (content flowName : String) :
    Grows s (runFlowStructure s content flowName) := by
  unfold runFlowStructure
  split <;> split <;> split <;>
    first
      | exact grows_refl _
      | exact grows_addWarning _ _
      | exact grows_trans (grows_addWarning _ _) (grows_addWarning _ _)
      | exact grows_trans (grows_trans (grows_addWarning _ _) (grows_addWarning _ _))
          (grows_addWarning _ _)

theorem grows_validateFlowDirectory (s : VState) (f : FlowEntry) :
    Grows s (validateFlowDirectory s f) := by
  unfold validateFlowDirectory
  cases f.template with
  | none => exact grows_addError _ _
  | some content =>
    cases f.parse with
    | error m =>
      by_cases ht : strIncludes content "$\x7b" = true
      · simpa [ht] using grows_trans (grows_runTokenUsage s content f.name)
          (grows_runFlowStructure _ content f.name)
      · simpa [ht] using grows_addError s
          ("Invalid JSON in flow template " ++ f.name ++ ": " ++ m)
    | ok _ =>
      exact grows_trans (grows_runTokenUsage s content f.name)
        (grows_runFlowStructure _ content f.name)

theorem grows_validateFlowTemplates (s : VState) (inp : VInputs) :
    Grows s (validateFlowTemplates s inp) := by
  unfold validateFlowTemplates
  cases inp.flows with
  | none => exact grows_addError _ _
  | some flows => exact grows_foldl _ grows_validateFlowDirectory flows s

theorem grows_validateTokensInEnvironment (s : VState) (o : EnvFileOutcome)
    (usedTokens : List String) (envFile : String) :
    Grows s (validateTokensInEnvironment s o usedTokens envFile) := by
  unfold validateTokensInEnvironment
  cases o.readParse with
  | error m => exact grows_addError _ _
  | ok config =>
    refine grows_foldl _ ?_ _ s
    intro st token
    by_cases hdef : token ∈ definedTokens config.tokens
    · simpa [hdef] using grows_refl st
    · simpa [hdef] using grows_addError st _

theorem grows_validateTokenCompleteness (s : VState) (flows : List FlowEntry)
    (inp : VInputs) : Grows s (validateTokenCompleteness s flows inp) := by
  unfold validateTokenCompleteness
  refine grows_foldl _ ?_ _ s
  intro st p
  by_cases hf : p.2.found
  · simpa [hf] using grows_validateTokensInEnvironment st p.2 _ p.1
  · simpa [hf] using grows_refl st

theorem grows_validateAll (s : VState) (inp : VInputs) :
    Grows s (validateAll s inp).1 := by
  unfold validateAll
  cases inp.flows with
  | none =>
    exact grows_trans (grows_validateEnvironmentConfigs s inp)
      (grows_validateFlowTemplates _ inp)
  | some flows =>
    exact grows_trans (grows_validateEnvironmentConfigs s inp)
      (grows_trans (grows_validateFlowTemplates _ inp)
        (grows_validateTokenCompleteness _ flows inp))

/-- Accumulated errors never disappear. -/
theorem grows_errors_ne {s s' : VState} (h : Grows s s') (hne : s.errors ≠ []) :
    s'.errors ≠ [] := by
  obtain ⟨de, _, he, _⟩ := h
  rw [he]
  simp only [ne_eq, List.append_eq_nil]
  intro hcon
  exact hne hcon.1

/-- C10.  On a single `FlowValidator` instance, the `errors` and `warnings`
lists only ever grow — every operation, `validateAll` included, only appends
(`addError`/`addWarning` push, nothing resets or removes) — so once any error
has been recorded the instance can never again return `true` from
`validateAll`, even for a later run over inputs that are themselves
error-free. -/
theorem validator_errors_monotone :
    (∀ (s : VState) (inp : VInputs), Grows s (validateAll s inp).1) ∧
    (∀ (s : VState) (inp : VInputs), s.errors ≠ [] →
      (validateAll s inp).1.errors ≠ [] ∧ (validateAll s inp).2 ≠ some true) := by
  refine ⟨grows_validateAll, ?_⟩
  intro s inp hne
  have hne' : (validateAll s inp).1.errors ≠ [] :=
    grows_errors_ne (grows_validateAll s inp) hne
  refine ⟨hne', ?_⟩
  intro hcon
  cases hfl : inp.flows with
  | none => simp [validateAll, hfl] at hcon
  | some flows =>
    simp only [validateAll, hfl] at hcon hne'
    rw [Option.some_inj] at hcon
    have h0 : (validateTokenCompleteness
        (validateFlowTemplates (validateEnvironmentConfigs s inp) inp)
        flows inp).errors.length = 0 := by
      simpa using hcon
    exact hne' (List.length_eq_zero.mp h0)

/-- Witness for C10: starting from a validator that has recorded one error,
a run over inputs that add nothing keeps the error and cannot pass. -/
theorem validator_errors_monotone_witness :
    (VState.mk ["previous failure"] []).errors ≠ [] ∧
    ((validateAll (VState.mk ["previous failure"] [])
        (VInputs.mk "./env" "./flows"
          ⟨false, .error "missing", none⟩
          ⟨false, .error "missing", none⟩
          ⟨false, .error "missing", none⟩
          none)).1.errors ≠ [] ∧
      (validateAll (VState.mk ["previous failure"] [])
        (VInputs.mk "./env" "./flows"
          ⟨false, .error "missing", none⟩
          ⟨false, .error "missing", none⟩
          ⟨false, .error "missing", none⟩
          none)).2 ≠ some true) :=
  ⟨by decide,
   validator_errors_monotone.2 (VState.mk ["previous failure"] [])
     (VInputs.mk "./env" "./flows"
        ⟨false, .error "missing", none⟩
        ⟨false, .error "missing", none⟩
        ⟨false, .error "missing", none⟩
        none)
     (by decide)⟩

/-! ### Instance consistency (claim C8) -/

/-- The Connect-service ARNs validate.js:167-188 examines: the string-valued
entries of the `Queue`, `Prompt` and `Lex` categories containing
`arn:aws:connect:`, each with its dotted token path. -/
def connectCatEntries (tokenType : String) :
    List (String × Tok) → List (String × String)
  | [] => []
  | (name, .str arn) :: es =>
    (if strIncludes arn "arn:aws:connect:" then [(tokenType ++ "." ++ name, arn)]
     else []) ++ connectCatEntries tokenType es
  | (_, _) :: es => connectCatEntries tokenType es

/-- The examined Connect ARNs of one token category. -/
def connectCatOf (tokenType : String) (tes : List (String × Tok)) :
    List (String × String) :=
  match List.lookup tokenType tes with
  | some (.node es) => connectCatEntries tokenType es
  | _ => []

/-- All Connect ARNs the instance-consistency check examines, in check
order. -/
def connectArnEntries (c : Config) : List (String × String) :=
  match c.tokens with
  | .node tes =>
    connectCatOf "Queue" tes ++ connectCatOf "Prompt" tes ++ connectCatOf "Lex" tes
  | _ => []

theorem flatMap_if_singleton {α β : Type} (p : α → Bool) (f : α → β) :
    ∀ l : List α,
      l.flatMap (fun e => if p e then [f e] else []) = (l.filter p).map f := by
  intro l
  induction l with
  | nil => rfl
  | cons a l ih =>
    by_cases hp : p a = true
    · simp [List.flatMap_cons, hp, ih]
    · simp [List.flatMap_cons, hp, ih]

theorem connectEntriesErrors_eq (iid envPath t : String) :
    ∀ es, connectEntriesErrors iid envPath t es =
      (connectCatEntries t es).flatMap
        (fun e => if arnMismatch iid e.2 then [instanceMismatchMsg envPath e.1]
                  else []) := by
  intro es
  induction es with
  | nil => rfl
  | cons a es ih =>
    obtain ⟨name, v⟩ := a
    cases v with
    | str arn =>
      by_cases hc : strIncludes arn "arn:aws:connect:" = true
      · simp [connectEntriesErrors, connectCatEntries, hc, checkConnectArn, ih,
          List.flatMap_cons]
      · simp [connectEntriesErrors, connectCatEntries, hc, ih]
    | null => simpa [connectEntriesErrors, connectCatEntries] using ih
    | bool b => simpa [connectEntriesErrors, connectCatEntries] using ih
    | num n => simpa [connectEntriesErrors, connectCatEntries] using ih
    | node inner => simpa [connectEntriesErrors, connectCatEntries] using ih

theorem connectTypeErrors_eq (iid envPath t : String)
    (tes : List (String × Tok)) :
    connectTypeErrors iid envPath t tes =
      ((connectCatOf t tes).filter (fun e => arnMismatch iid e.2)).map
        (fun e => instanceMismatchMsg envPath e.1) := by
  unfold connectTypeErrors connectCatOf
  cases List.lookup t tes with
  | none => rfl
  | some v =>
    cases v with
    | node es =>
      show connectEntriesErrors iid envPath t es =
        ((connectCatEntries t es).filter (fun e => arnMismatch iid e.2)).map
          (fun e => instanceMismatchMsg envPath e.1)
      rw [connectEntriesErrors_eq, flatMap_if_singleton]
    | str _ => rfl
    | null => rfl
    | bool _ => rfl
    | num _ => rfl

/-- `validateInstanceConsistency` records exactly one error per examined
Connect ARN whose substring check fails, naming the token path. -/
theorem validateInstanceConsistency_eq (c : Config) (envPath : String) :
    validateInstanceConsistency c envPath =
      ((connectArnEntries c).filter (fun e => arnMismatch c.instance_id e.2)).map
        (fun e => instanceMismatchMsg envPath e.1) := by
  unfold validateInstanceConsistency connectArnEntries
  cases c.tokens with
  | node tes =>
    show connectTypeErrors c.instance_id envPath "Queue" tes ++
        connectTypeErrors c.instance_id envPath "Prompt" tes ++
        connectTypeErrors c.instance_id envPath "Lex" tes =
      (((connectCatOf "Queue" tes ++ connectCatOf "Prompt" tes ++
          connectCatOf "Lex" tes).filter
            (fun e => arnMismatch c.instance_id e.2)).map
        (fun e => instanceMismatchMsg envPath e.1))
    rw [connectTypeErrors_eq, connectTypeErrors_eq, connectTypeErrors_eq,
      List.filter_append, List.filter_append, List.map_append, List.map_append]
  | null => rfl
  | bool _ => rfl
  | num _ => rfl
  | str _ => rfl

/-- The id embedded in an ARN's `instance/<id>/` resource segment — the
spec's reading of "embeds an instance id", stated for comparison with the
code's substring check.  (In a Connect ARN the segment follows the account
number's colon: `...:instance/<id>/queue/<qid>`.) -/
def specEmbeddedInstanceId : List Char → Option String
  | [] => none
  | l@(_ :: cs) =>
    if "instance/".data.isPrefixOf l then
      some (String.mk ((l.drop 9).takeWhile (· ≠ '/')))
    else specEmbeddedInstanceId cs

/-- An environment map whose single Connect-service ARN (the `Queue.Sales`
token) embeds an instance id entirely different from
`connect.instance_id`. -/
def cfgMismatched : Config where
  instance_id := "12345678-1234-1234-1234-123456789012"
  instance_arn :=
    "arn:aws:connect:us-east-1:123456789012:instance/12345678-1234-1234-1234-123456789012"
  region := "us-east-1"
  tokens := .node [("Queue", .node [("Sales", .str
    "arn:aws:connect:us-east-1:123456789012:instance/99999999-9999-9999-9999-999999999999/queue/q1")])]

/-- A full validation run over `cfgMismatched` in all three environments,
with an empty flows directory. -/
def inpMismatched : VInputs where
  envDir := "./env"
  flowsDir := "./flows"
  dev := ⟨true, .ok cfgMismatched, none⟩
  test := ⟨true, .ok cfgMismatched, none⟩
  prod := ⟨true, .ok cfgMismatched, none⟩
  flows := some []

/-- C8 (code bug, evaluated at the failing input): `cfgMismatched` holds
exactly one Connect-service ARN, its `instance/<id>/` segment embeds
`99999999-…`, different from `connect.instance_id` — but
`validateInstanceConsistency` records no error and `validateAll` passes.
A Connect ARN reads `...:instance/<id>/...`, so the check's
`arn.includes('/instance/')` (leading slash) never fires on one; even when an
ARN does contain `/instance/`, the check only requires the configured id to
occur as a substring, which an embedded id extending it satisfies. -/
theorem instanceConsistency_never_fires :
    connectArnEntries cfgMismatched =
      [("Queue.Sales",
        "arn:aws:connect:us-east-1:123456789012:instance/99999999-9999-9999-9999-999999999999/queue/q1")] ∧
    specEmbeddedInstanceId
        ("arn:aws:connect:us-east-1:123456789012:instance/99999999-9999-9999-9999-999999999999/queue/q1").data =
      some "99999999-9999-9999-9999-999999999999" ∧
    ("99999999-9999-9999-9999-999999999999" : String) ≠ cfgMismatched.instance_id ∧
    validateInstanceConsistency cfgMismatched "env/test.yaml" = [] ∧
    (validateAll newValidator inpMismatched).2 = some true := by
  refine ⟨by decide, by decide, by decide, by decide, by decide⟩

/-! ### Token completeness never fires (claim C2) -/

/-- An environment map defining only `Queue.Sales`. -/
def cfgQueueOnly : Config where
  instance_id := "12345678-1234-1234-1234-123456789012"
  instance_arn :=
    "arn:aws:connect:us-east-1:123456789012:instance/12345678-1234-1234-1234-123456789012"
  region := "us-east-1"
  tokens := .node [("Queue", .node [("Sales", .str
    "arn:aws:connect:us-east-1:123456789012:instance/12345678-1234-1234-1234-123456789012/queue/q1")])]

/-- A template referencing the undefined token `Queue.NewQueue`. -/
def tmplNewQueue : String :=
  "\x7b\"queueArn\": \"$\x7bQueue.NewQueue\x7d\"\x7d"

/-- A full validation run: all three environments are `cfgQueueOnly`, and one
flow template references `$\x7bQueue.NewQueue\x7d` (its `JSON.parse` fails,
which is tolerated because the text contains `$\x7b`). -/
def inpNewQueue : VInputs where
  envDir := "./env"
  flowsDir := "./flows"
  dev := ⟨true, .ok cfgQueueOnly, none⟩
  test := ⟨true, .ok cfgQueueOnly, none⟩
  prod := ⟨true, .ok cfgQueueOnly, none⟩
  flows := some [⟨"Sales", some tmplNewQueue, .error "Unexpected token Q"⟩]

/-- C2 (code bug, evaluated at the failing input): the doubly escaped token
pattern of validate.js:253/321 can never match (its unescaped `$` is an
end-of-input anchor with required atoms after it), so `collectUsedTokens`
collects nothing — although the correctly escaped render.js pattern finds
`Queue.NewQueue` in the template and that path is not defined in the
environment map, validation records no error at all and `validateAll`
passes. -/
theorem token_completeness_never_fires :
    (∀ l, raMatch valTokenPattern l = none) ∧
    (∀ s : String, scanAll valTokenPattern s.data = []) ∧
    tokenOccurrences tmplNewQueue.data = ["Queue.NewQueue"] ∧
    "Queue.NewQueue" ∉ definedTokens cfgQueueOnly.tokens ∧
    collectUsedTokens [⟨"Sales", some tmplNewQueue, .error "Unexpected token Q"⟩] = [] ∧
    (validateAll newValidator inpNewQueue).1.errors = [] ∧
    (validateAll newValidator inpNewQueue).2 = some true :=
  ⟨raMatch_valTokenPattern, fun s => scanAll_valTokenPattern s.data,
   by decide, by simp [definedTokens, cfgQueueOnly, flattenEntries],
   collectUsedTokens_nil _, by decide, by decide⟩

/-! ### The Blue/Green deployment handler's Delete path
(cdk/lib/connect-flow-stack.js, inline Lambda source) -/

/-- The Connect API calls the Delete path can issue.  (The
`connect.deleteContactFlow` call at line 309 of the stack file is commented
out — "deletion skipped for safety" — so the constructor below records what a
delete WOULD be.) -/
inductive AwsCall where
  | describeContactFlow (instanceId contactFlowId : String)
  | deleteContactFlow (instanceId contactFlowId : String)
deriving DecidableEq

/-- How `handleDelete` returned. -/
inductive DeleteOutcome where
  | nothingToDelete
  | refusedActive
  | skippedForSafety
  | describeFailed (msg : String)
deriving DecidableEq

/-- JS `s.split('/')`. -/
def splitSlashGo (acc : List Char) : List Char → List String
  | [] => [String.mk acc.reverse]
  | c :: cs =>
    if c = '/' then String.mk acc.reverse :: splitSlashGo [] cs
    else splitSlashGo (c :: acc) cs

/-- JS `contactFlowArn.split('/').pop()` (stack file line 290): the last
`/`-separated segment. -/
def lastSegment : List String → String
  | [] => ""
  | [x] => x
  | _ :: xs => lastSegment xs

def flowIdOfArn (arn : String) : String :=
  lastSegment (splitSlashGo [] arn.data)

/-- Stack file lines 278-316, `handleDelete(contactFlowArn, instanceId)`:
a falsy or `'failed'` ARN is skipped; otherwise `describeContactFlow` runs
(its result — or thrown error, caught at line 312 — is the `describe`
argument); an `ACTIVE` flow is refused ("Contact flow is active, not
deleting"); and even for a non-active flow the `deleteContactFlow` call is
commented out, so no delete is ever issued. -/
def handleDelete (contactFlowArn instanceId : String)
    (describe : Except String String) : DeleteOutcome × List AwsCall :=
  if contactFlowArn = "" ∨ contactFlowArn = "failed" then
    (.nothingToDelete, [])
  else
    let contactFlowId := flowIdOfArn contactFlowArn
    match describe with
    | .error m => (.describeFailed m, [.describeContactFlow instanceId contactFlowId])
    | .ok st =>
      if st = "ACTIVE" then
        (.refusedActive, [.describeContactFlow instanceId contactFlowId])
      else
        (.skippedForSafety, [.describeContactFlow instanceId contactFlowId])

/-- Stack file lines 202-207, the handler's `Delete` case:
`if (!BlueGreenDeployment) await handleDelete(...)` — under Blue/Green the
delete path is not even entered. -/
def handlerDelete (blueGreenDeployment : Bool)
    (physicalResourceId instanceId : String)
    (describe : Except String String) : Option DeleteOutcome × List AwsCall :=
  if blueGreenDeployment then (none, [])
  else
    let r := handleDelete physicalResourceId instanceId describe
    (some r.1, r.2)

/-- C9.  In the Blue/Green deployment handler a deployed flow version is
never deleted automatically: whenever the flow's live state is `ACTIVE` the
delete operation is refused — `handleDelete` returns `refusedActive` after
only a describe call — and in fact no execution of the Delete path ever
issues a `deleteContactFlow` call at all, so a previously deployed version
remains available for rollback by rebinding an entry point to it. -/
theorem handler_never_deletes :
    (∀ arn iid : String, handleDelete arn iid (.ok "ACTIVE") =
      (if arn = "" ∨ arn = "failed" then (.nothingToDelete, [])
       else (.refusedActive, [.describeContactFlow iid (flowIdOfArn arn)]))) ∧
    (∀ (bg : Bool) (arn iid : String) (d : Except String String) (x y : String),
      AwsCall.deleteContactFlow x y ∉ (handlerDelete bg arn iid d).2) := by
  constructor
  · intro arn iid
    by_cases hskip : arn = "" ∨ arn = "failed"
    · simp [handleDelete, hskip]
    · simp [handleDelete, hskip]
  · intro bg arn iid d x y
    cases bg with
    | true => simp [handlerDelete]
    | false =>
      by_cases hskip : arn = "" ∨ arn = "failed"
      · simp [handlerDelete, handleDelete, hskip]
      · cases d with
        | error m => simp [handlerDelete, handleDelete, hskip]
        | ok st =>
          by_cases hact : st = "ACTIVE" <;>
            simp [handlerDelete, handleDelete, hskip, hact]

/-! ### Post-render validation (render.js:108-171, claim C4) -/

/-- `[a-zA-Z0-9-]` of the ARN pattern (render.js:143). -/
def isArnNameChar (c : Char) : Bool :=
  c.isAlpha || c.isDigit || c = '-'

/-- `[a-zA-Z0-9-\/]`, the resource-path class of the ARN pattern. -/
def isArnResChar (c : Char) : Bool :=
  c.isAlpha || c.isDigit || c = '-' || c = '/'

/-- JS `s.split(':')`. -/
def splitColonGo (acc : List Char) : List Char → List String
  | [] => [String.mk acc.reverse]
  | c :: cs =>
    if c = ':' then String.mk acc.reverse :: splitColonGo [] cs
    else splitColonGo (c :: acc) cs

/-- The anchored pattern
`^arn:aws:[a-zA-Z0-9-]+:[a-zA-Z0-9-]*:\d\x7b12\x7d:[a-zA-Z0-9-\/]+$` of
render.js:143.  Every character class excludes `:`, so a match is exactly a
six-part colon split `arn:aws:<service>:<region>:<12 digits>:<resource>`
with the class constraints on each part. -/
def arnPatternTest (s : String) : Bool :=
  match splitColonGo [] s.data with
  | ["arn", "aws", svc, region, acct, res] =>
    !svc.isEmpty && svc.data.all isArnNameChar &&
    region.data.all isArnNameChar &&
    acct.data.length == 12 && acct.data.all Char.isDigit &&
    !res.isEmpty && res.data.all isArnResChar
  | _ => false

/-- `path ? path + '.' + key : key` (render.js:150). -/
def joinPropPath (path key : String) : String :=
  if path = "" then key else path ++ "." ++ key

mutual

/-- render.js:140-153, `validateArns`: a string value is tested against the
strict ARN pattern only when it contains `:arn:aws:` — with a LEADING colon;
objects and arrays are walked, arrays contributing their numeric indices to
the reported path (JS `Object.entries` on an array). -/
def validateArns : Json → String → List String
  | .str s, path =>
    if strIncludes s ":arn:aws:" then
      if arnPatternTest s then []
      else ["Invalid ARN format at " ++ path ++ ": " ++ s]
    else []
  | .obj es, path => vaEntries es path
  | .arr xs, path => vaItems xs 0 path
  | _, _ => []

def vaEntries : List (String × Json) → String → List String
  | [], _ => []
  | (k, v) :: es, path =>
    validateArns v (joinPropPath path k) ++ vaEntries es path

def vaItems : List Json → Nat → String → List String
  | [], _, _ => []
  | x :: xs, i, path =>
    validateArns x (joinPropPath path (toString i)) ++ vaItems xs (i + 1) path

end

/-- `^\+[1-9]\d\x7b1,14\x7d$` (render.js:161): `+`, a leading digit 1-9,
then 1 to 14 further digits. -/
def e164Test (s : String) : Bool :=
  match s.data with
  | '+' :: c :: ds =>
    ('1' ≤ c && c ≤ '9') && ds.all Char.isDigit &&
    decide (1 ≤ ds.length) && decide (ds.length ≤ 14)
  | _ => false

mutual

/-- render.js:158-171, `validatePhoneNumbers`: only strings starting with
`+` are tested. -/
def validatePhoneNumbers : Json → String → List String
  | .str s, path =>
    if strStartsWith s "+" then
      if e164Test s then []
      else ["Invalid E.164 phone number at " ++ path ++ ": " ++ s]
    else []
  | .obj es, path => vpEntries es path
  | .arr xs, path => vpItems xs 0 path
  | _, _ => []

def vpEntries : List (String × Json) → String → List String
  | [], _ => []
  | (k, v) :: es, path =>
    validatePhoneNumbers v (joinPropPath path k) ++ vpEntries es path

def vpItems : List Json → Nat → String → List String
  | [], _, _ => []
  | x :: xs, i, path =>
    validatePhoneNumbers x (joinPropPath path (toString i)) ++ vpItems xs (i + 1) path

end

/-- One character of `JSON.stringify` string escaping. -/
def escapeJsonChar (c : Char) : List Char :=
  if c = '"' then ['\\', '"']
  else if c = '\\' then ['\\', '\\']
  else if c = '\n' then ['\\', 'n']
  else if c = '\t' then ['\\', 't']
  else if c = '\r' then ['\\', 'r']
  else if c = '\x08' then ['\\', 'b']
  else if c = '\x0c' then ['\\', 'f']
  else if c.toNat < 32 then
    ['\\', 'u', '0', '0',
     (if c.toNat / 16 < 10 then Char.ofNat ('0'.toNat + c.toNat / 16)
      else Char.ofNat ('a'.toNat + c.toNat / 16 - 10)),
     (if c.toNat % 16 < 10 then Char.ofNat ('0'.toNat + c.toNat % 16)
      else Char.ofNat ('a'.toNat + c.toNat % 16 - 10))]
  else [c]

/-- `JSON.stringify` escaping of a string body. -/
def escapeJson (s : String) : String :=
  String.mk (s.data.flatMap escapeJsonChar)

mutual

/-- `JSON.stringify(flowJson)` (render.js:120), compact form (no spacing
argument). -/
def jsonStringify : Json → String
  | .null => "null"
  | .bool true => "true"
  | .bool false => "false"
  | .num n => toString n
  | .str s => "\"" ++ escapeJson s ++ "\""
  | .arr xs => "[" ++ stringifyItems xs ++ "]"
  | .obj es => "\x7b" ++ stringifyEntries es ++ "\x7d"

def stringifyItems : List Json → String
  | [] => ""
  | [x] => jsonStringify x
  | x :: xs => jsonStringify x ++ "," ++ stringifyItems xs

def stringifyEntries : List (String × Json) → String
  | [] => ""
  | [(k, v)] => "\"" ++ escapeJson k ++ "\":" ++ jsonStringify v
  | (k, v) :: es =>
    "\"" ++ escapeJson k ++ "\":" ++ jsonStringify v ++ "," ++ stringifyEntries es

end

/-- JS property read `flowJson[field]` on the parsed artifact. -/
def jget : Json → String → Option Json
  | .obj es, k => List.lookup k es
  | _, _ => none

/-- JS falsiness of `flowJson[field]` (render.js:114, `!flowJson[field]`). -/
def jsFalsy : Option Json → Bool
  | none => true
  | some .null => true
  | some (.bool false) => true
  | some (.num 0) => true
  | some (.str "") => true
  | some _ => false

/-- render.js:108-135, `validateRenderedFlow`: collect missing required
fields, any remaining token-pattern matches in the serialized artifact, all
ARN-format violations and all E.164 violations, then throw a single
aggregated failure iff the list is nonempty. -/
def validateRenderedFlow (flowJson : Json) (flowName : String) :
    Except String Unit :=
  let errors :=
    (if jsFalsy (jget flowJson "name") then ["Missing required field: name"] else []) ++
    (if jsFalsy (jget flowJson "type") then ["Missing required field: type"] else []) ++
    (if jsFalsy (jget flowJson "content") then ["Missing required field: content"] else []) ++
    (match remainingTokens (jsonStringify flowJson).data with
     | [] => []
     | ms => ["Unresolved tokens: " ++ String.intercalate ", " ms]) ++
    validateArns flowJson "" ++
    validatePhoneNumbers flowJson ""
  match errors with
  | [] => .ok ()
  | es =>
    .error ("Validation failed for " ++ flowName ++ ":\n- " ++
      String.intercalate "\n- " es)

/-- The rendered flow of the repository's own test
"should validate ARN formats" (tests/integration.test.js:91-112), which the
test expects `validateRenderedFlow` to reject. -/
def flowBadArn : Json :=
  .obj [("name", .str "TestFlow"), ("type", .str "CONTACT_FLOW"),
        ("content", .obj [("lambdaArn", .str "arn:aws:lambda:invalid-format")])]

/-- C4 (code bug, evaluated at the failing input): the string
`arn:aws:lambda:invalid-format` contains the ARN-shaped substring
`arn:aws:` and fails the strict ARN grammar, but render.js:142 only tests
strings containing `:arn:aws:` — with a leading colon, which no string value
that IS an ARN contains — so `validateArns` records nothing and
`validateRenderedFlow` returns without throwing, although the repository's
own test expects it to throw. -/
theorem arn_check_requires_leading_colon :
    strIncludes "arn:aws:lambda:invalid-format" "arn:aws:" = true ∧
    arnPatternTest "arn:aws:lambda:invalid-format" = false ∧
    strIncludes "arn:aws:lambda:invalid-format" ":arn:aws:" = false ∧
    validateArns flowBadArn "" = [] ∧
    validateRenderedFlow flowBadArn "TestFlow" = .ok () :=
  ⟨by decide, by decide, by decide, by decide, rfl⟩

end ConnectDeploy
